import Mathlib

/-!
Verification development for the `laravel-blade-vars-bridge` extension.

Text is modelled as `List Char` (`Str`).  The JavaScript regular expressions
of the source are embedded in two ways:
* regexes that appear as literals (or as template strings with a directly
  interpolated variable name) are transcribed into small combinator
  recognizers (`Pat`) whose result lists are ordered the way a backtracking
  JS engine orders its attempts (greedy = longest first, lazy = shortest
  first, alternation = left first); the first element of the result list is
  the JS match;
* the patterns of `inferEnumType`, which are built at run time from a regex
  *source string* via `ENUM_PATTERNS.*.source.replace(...)`, are embedded
  through a small regex-source compiler (`compileRegex`) and a fueled
  backtracking matcher, so that the (broken) `.replace` on the source string
  is modelled honestly.

The filesystem (`fs.existsSync` / `fs.readFileSync`) is a function
`Str → Option Str`: `some content` iff the file exists and is readable.
-/

/-- Text, modelled as a list of characters. -/
abbrev Str := List Char

/-- Convert a Lean string literal to the `Str` representation. -/
def str (s : String) : Str := s.toList

/-- JS `\s` restricted to the ASCII white-space characters (the sources only
ever meet ASCII white space). -/
def isWsChar (c : Char) : Bool :=
  c = ' ' || c = '\t' || c = '\n' || c = '\r' || c = '\x0b' || c = '\x0c'

/-- JS `\w`, i.e. `[A-Za-z0-9_]`. -/
def isWordChar (c : Char) : Bool :=
  ('a' ≤ c && c ≤ 'z') || ('A' ≤ c && c ≤ 'Z') || ('0' ≤ c && c ≤ '9') || c = '_'

/-- `[A-Z]`. -/
def isUpperChar (c : Char) : Bool := 'A' ≤ c && c ≤ 'Z'

/-- `[a-z]`. -/
def isLowerChar (c : Char) : Bool := 'a' ≤ c && c ≤ 'z'

/-- `[0-9]`. -/
def isDigitChar (c : Char) : Bool := '0' ≤ c && c ≤ '9'

/-- `[a-zA-Z0-9_]` (same character set as `\w`). -/
def isAlnumU (c : Char) : Bool := isWordChar c

/-- `[A-Z_]`. -/
def isUpperU (c : Char) : Bool := isUpperChar c || c = '_'

/-- `[A-Z0-9_]`. -/
def isUpperDigitU (c : Char) : Bool := isUpperChar c || isDigitChar c || c = '_'

/-- `[a-zA-Z_]`. -/
def isAlphaU (c : Char) : Bool := isLowerChar c || isUpperChar c || c = '_'

/-- `['"]`. -/
def isQuoteCh (c : Char) : Bool := c = '\'' || c = '"'

/-- Maximal run of characters satisfying `f` at the head of the input,
together with the rest. -/
def takeRun (f : Char → Bool) : Str → Str × Str
  | [] => ([], [])
  | c :: r =>
    if f c then
      let p := takeRun f r
      (c :: p.1, p.2)
    else ([], c :: r)

/-- Substring of length `len` starting at index `i`. -/
def subStr (s : Str) (i len : Nat) : Str := (s.drop i).take len

/-- Does `s` start with `p`? -/
def startsWithStr : Str → Str → Bool
  | _, [] => true
  | [], _ :: _ => false
  | c :: r, d :: q => c = d && startsWithStr r q

/-- Does `s` end with `p`? -/
def endsWithStr (s p : Str) : Bool := startsWithStr s.reverse p.reverse

/-- Does `s` contain `p` as a substring (JS `String.prototype.includes`)? -/
def containsSub : Str → Str → Bool
  | [], p => p.isEmpty
  | c :: r, p => startsWithStr (c :: r) p || containsSub r p

/-- Replace the first occurrence of substring `pat` by `rep`
(JS `String.prototype.replace` with a plain-string pattern). -/
def replaceFirstSub : Str → Str → Str → Str
  | [], _, _ => []
  | c :: r, pat, rep =>
    if startsWithStr (c :: r) pat then rep ++ (c :: r).drop pat.length
    else c :: replaceFirstSub r pat rep

/-- Remove every character satisfying `f` (JS `replace(/…/g, '')` with a
single-character class). -/
def removeChars (f : Char → Bool) (s : Str) : Str := s.filter (fun c => !(f c))

/-- JS `String.prototype.trim` (ASCII white space). -/
def trimStr (s : Str) : Str :=
  ((s.dropWhile isWsChar).reverse.dropWhile isWsChar).reverse

/-- JS `String.prototype.split(sep)` with a one-character separator. -/
def splitOnCh (sep : Char) : Str → List Str
  | [] => [[]]
  | c :: r =>
    if c = sep then [] :: splitOnCh sep r
    else
      match splitOnCh sep r with
      | [] => [[c]]
      | p :: ps => (c :: p) :: ps

/-- JS `String.prototype.toLowerCase` (ASCII). -/
def lowerStr (s : Str) : Str := s.map Char.toLower

/-- Join a list of segments with a single separator character. -/
def joinSep (c : Char) : List Str → Str
  | [] => []
  | [s] => s
  | s :: rest => s ++ c :: joinSep c rest

/-!  ## Backtracking recognizer combinators

A `Pat α` consumes characters from the head of the input and returns the
list of all possible `(value, rest)` outcomes, ordered by the priority a
JS backtracking engine would try them in.  The JS match is the head of
that list. -/

/-- Backtracking recognizer. -/
def Pat (α : Type) : Type := Str → List (α × Str)

/-- Recognizer that succeeds without consuming input. -/
def ppure {α : Type} (a : α) : Pat α := fun s => [(a, s)]

/-- Recognizer that always fails. -/
def pfail {α : Type} : Pat α := fun _ => []

/-- Sequential composition. -/
def pbind {α β : Type} (p : Pat α) (f : α → Pat β) : Pat β :=
  fun s => (p s).flatMap (fun r => f r.1 r.2)

/-- Map over the recognized value. -/
def pmap {α β : Type} (f : α → β) (p : Pat α) : Pat β :=
  fun s => (p s).map (fun r => (f r.1, r.2))

/-- Ordered alternation (left alternative has priority, as in JS `|`). -/
def palt {α : Type} (p q : Pat α) : Pat α := fun s => p s ++ q s

/-- Recognize one character satisfying `f`. -/
def pch (f : Char → Bool) : Pat Char
  | [] => []
  | c :: r => if f c then [(c, r)] else []

/-- Recognize a literal string. -/
def plit : Str → Pat Unit
  | [] => ppure ()
  | c :: rest => pbind (pch (· = c)) (fun _ => plit rest)

/-- Greedy `f*` over a character class: all prefixes of the maximal run,
longest first. -/
def pruns (f : Char → Bool) : Pat Str := fun s =>
  let p := takeRun f s
  (List.range (p.1.length + 1)).map
    (fun k => (p.1.take (p.1.length - k), p.1.drop (p.1.length - k) ++ p.2))

/-- Greedy `f+` over a character class: nonempty prefixes of the maximal
run, longest first. -/
def pruns1 (f : Char → Bool) : Pat Str := fun s =>
  let p := takeRun f s
  (List.range p.1.length).map
    (fun k => (p.1.take (p.1.length - k), p.1.drop (p.1.length - k) ++ p.2))

/-- Lazy `f*?` over a character class: prefixes of the maximal run,
shortest first (used for `[\s\S]*?` with `f := fun _ => true`). -/
def plazy (f : Char → Bool) : Pat Str := fun s =>
  let p := takeRun f s
  (List.range (p.1.length + 1)).map
    (fun k => (p.1.take k, p.1.drop k ++ p.2))

/-- Greedy `?` (JS optional quantifier: try the present branch first). -/
def popt {α : Type} (p : Pat α) : Pat (Option α) :=
  palt (pmap some p) (ppure none)

/-- Greedy star of a compound recognizer (fuelled; every pattern embedded
below consumes at least one character per iteration, mirroring the JS rule
that a star exits on an empty iteration). -/
def pstarG (p : Pat Str) : Nat → Pat Str
  | 0 => ppure []
  | fuel + 1 =>
    palt
      (pbind p (fun x =>
        if x.isEmpty then pfail
        else pmap (fun y => x ++ y) (pstarG p fuel)))
      (ppure [])

/-- Greedy star of a compound recognizer, fuelled by the input length. -/
def pstar (p : Pat Str) : Pat Str := fun s => pstarG p s.length s

/-- Try the recognizer at the head of the input; on success return the JS
match: the first outcome, with the number of consumed characters. -/
def firstHit {α : Type} (p : Pat α) (s : Str) : Option (α × Nat) :=
  match p s with
  | [] => none
  | r :: _ => some (r.1, s.length - r.2.length)

/-- All matches of `p` in `s`, scanning left to right the way a JS
`g`-flagged `exec` loop does: at each position try the recognizer; on a
match emit `(index, value, length)` and resume after it (advancing at
least one character; every embedded pattern has nonempty matches).  The
recursion is structural on a fuel that every caller sets to more than the
input length, which the scan can never exhaust (each step drops at least
one character). -/
def scanFrom {α : Type} (p : Pat α) : Nat → Str → Nat → List (Nat × α × Nat)
  | 0, _, _ => []
  | _ + 1, [], _ => []
  | fuel + 1, c :: rest, i =>
    match firstHit p (c :: rest) with
    | none => scanFrom p fuel rest (i + 1)
    | some (a, len) =>
      (i, a, len) :: scanFrom p fuel (rest.drop (max len 1 - 1)) (i + max len 1)

/-- All matches of `p` in `s` (`String.prototype.match` with the `g` flag,
full-match substrings recoverable through the indices). -/
def scanAll {α : Type} (p : Pat α) (s : Str) : List (Nat × α × Nat) :=
  scanFrom p (s.length + 1) s 0

/-- First match of `p` in `s` (non-global `match`/`exec`). -/
def findFirst {α : Type} (p : Pat α) (s : Str) : Option (Nat × α × Nat) :=
  (scanAll p s).head?

/-- JS `RegExp.prototype.test`. -/
def testPat {α : Type} (p : Pat α) (s : Str) : Bool := (findFirst p s).isSome

/-!  ## A small regex-source compiler and matcher

`inferEnumType` builds its patterns at run time with
`new RegExp(ENUM_PATTERNS.*.source.replace(/\\(\\w\\+\\)/, varName), 'g')`.
To model this honestly we compile the regex *source string* (after the
modelled `.replace`) into a syntax tree and run a fueled backtracking
matcher over it.  The fragment implemented covers exactly the constructs
those sources use: literals, the escapes `\$ \s \w \( \)`, positive
character classes with ranges, groups, alternation and the `* + ?`
quantifiers.  Only full-match substrings are needed (the source code
re-extracts submatches from `match[0]` with separate literal regexes). -/

/-- One item of a regex character class. -/
inductive ClsItem where
  | one (c : Char)
  | rng (lo hi : Char)
deriving Repr, DecidableEq

/-- Regex syntax tree (captures are not tracked: the embedded call sites
only use full-match substrings). -/
inductive Reg where
  | emp
  | chr (c : Char)
  | cls (items : List ClsItem)
  | wsCls
  | wordCls
  | seq (a b : Reg)
  | alt (a b : Reg)
  | star (r : Reg)
deriving Repr

mutual

/-- Parse an alternation from a regex source string (fuelled). -/
def regAlt : Nat → Str → Option (Reg × Str)
  | 0, _ => none
  | f + 1, s =>
    match regSeq f s with
    | none => none
    | some (r, rest) =>
      match rest with
      | '|' :: rest2 =>
        match regAlt f rest2 with
        | none => none
        | some (r2, rest3) => some (.alt r r2, rest3)
      | _ => some (r, rest)

/-- Parse a concatenation from a regex source string (fuelled). -/
def regSeq : Nat → Str → Option (Reg × Str)
  | 0, _ => none
  | f + 1, s =>
    match s with
    | [] => some (.emp, [])
    | ')' :: _ => some (.emp, s)
    | '|' :: _ => some (.emp, s)
    | _ =>
      match regAtom f s with
      | none => none
      | some (r, rest) =>
        let q : Reg × Str :=
          match rest with
          | '*' :: t => (Reg.star r, t)
          | '+' :: t => (Reg.seq r (Reg.star r), t)
          | '?' :: t => (Reg.alt r Reg.emp, t)
          | _ => (r, rest)
        match regSeq f q.2 with
        | none => none
        | some (r2, rest2) => some (.seq q.1 r2, rest2)

/-- Parse one atom (group, class, escape or literal character). -/
def regAtom : Nat → Str → Option (Reg × Str)
  | 0, _ => none
  | f + 1, s =>
    match s with
    | '(' :: t =>
      match regAlt f t with
      | some (r, ')' :: t2) => some (r, t2)
      | _ => none
    | '[' :: t =>
      match clsItems f t with
      | some (items, rest) => some (.cls items, rest)
      | none => none
    | '\\' :: c :: t =>
      if c = 's' then some (.wsCls, t)
      else if c = 'w' then some (.wordCls, t)
      else some (.chr c, t)
    | c :: t => some (.chr c, t)
    | [] => none

/-- Parse the items of a character class up to the closing bracket. -/
def clsItems : Nat → Str → Option (List ClsItem × Str)
  | 0, _ => none
  | f + 1, s =>
    match s with
    | [] => none
    | ']' :: t => some ([], t)
    | a :: '-' :: b :: t =>
      if b = ']' then
        match clsItems f (']' :: t) with
        | some (items, rest) => some (.one a :: .one '-' :: items, rest)
        | none => none
      else
        match clsItems f t with
        | some (items, rest) => some (.rng a b :: items, rest)
        | none => none
    | a :: t =>
      match clsItems f t with
      | some (items, rest) => some (.one a :: items, rest)
      | none => none

end

/-- Compile a regex source string (fuel chosen generously; all embedded
sources are far shorter than the bound). -/
def compileRegex (src : Str) : Option Reg :=
  match regAlt (4 * src.length + 16) src with
  | some (r, []) => some r
  | _ => none

/-- Character-class membership. -/
def clsMem (items : List ClsItem) (c : Char) : Bool :=
  items.any fun it =>
    match it with
    | .one d => c = d
    | .rng lo hi => lo ≤ c && c ≤ hi

/-- Nesting size of a regex tree, used to bound the matcher's fuel. -/
def regSize : Reg → Nat
  | .emp => 1
  | .chr _ => 1
  | .cls _ => 1
  | .wsCls => 1
  | .wordCls => 1
  | .seq a b => regSize a + regSize b + 1
  | .alt a b => regSize a + regSize b + 1
  | .star r => regSize r + 1

/-- Backtracking matcher: all `(consumed, rest)` outcomes in JS priority
order (greedy stars try more iterations first, alternation tries the left
branch first).  Star iterations must consume input, as in JS.  The
recursion is structural on a fuel that bounds the call depth; callers pass
`(length + 1) * (regSize + 1) + 1`, which the matcher cannot exhaust
(every star iteration consumes a character and every structural descent is
bounded by the tree size). -/
def mreg : Nat → Reg → Str → List (Str × Str)
  | 0, _, _ => []
  | _ + 1, .emp, s => [([], s)]
  | _ + 1, .chr c, s =>
    match s with
    | [] => []
    | d :: t => if d = c then [([d], t)] else []
  | _ + 1, .cls items, s =>
    match s with
    | [] => []
    | d :: t => if clsMem items d then [([d], t)] else []
  | _ + 1, .wsCls, s =>
    match s with
    | [] => []
    | d :: t => if isWsChar d then [([d], t)] else []
  | _ + 1, .wordCls, s =>
    match s with
    | [] => []
    | d :: t => if isWordChar d then [([d], t)] else []
  | f + 1, .seq a b, s =>
    (mreg f a s).flatMap fun r => (mreg f b r.2).map fun q => (r.1 ++ q.1, q.2)
  | f + 1, .alt a b, s => mreg f a s ++ mreg f b s
  | f + 1, .star r, s =>
    ((mreg f r s).flatMap fun x =>
      if x.1.isEmpty then []
      else (mreg f (.star r) x.2).map fun y => (x.1 ++ y.1, y.2))
    ++ [([], s)]

/-- Match the compiled regex at the head of the input; JS match = first
outcome, returned with its length. -/
def regFirstHit (reg : Reg) (s : Str) : Option (Str × Nat) :=
  match mreg ((s.length + 1) * (regSize reg + 1) + 1) reg s with
  | [] => none
  | r :: _ => some (r.1, s.length - r.2.length)

/-- All matches of the compiled regex, scanning left to right as a
`g`-flagged `exec` loop does (fuelled like `scanFrom`). -/
def regScanFrom (reg : Reg) : Nat → Str → Nat → List (Nat × Str)
  | 0, _, _ => []
  | _ + 1, [], _ => []
  | fuel + 1, c :: rest, i =>
    match regFirstHit reg (c :: rest) with
    | none => regScanFrom reg fuel rest (i + 1)
    | some (m, len) =>
      (i, m) :: regScanFrom reg fuel (rest.drop (max len 1 - 1)) (i + max len 1)

/-- `String.prototype.match` (with the `g` flag) over a compiled source
string; an uncompilable source yields no matches (unreachable for the
sources embedded here — `new RegExp` would throw). -/
def matchAllSrc (src : Str) (code : Str) : List Str :=
  match compileRegex src with
  | none => []
  | some reg => (regScanFrom reg (code.length + 1) code 0).map (·.2)

/-- The recognizer of the regex `/\\(\\w\\+\\)/` used by `inferEnumType`'s
`.replace` call: a literal backslash, then (group) a literal backslash,
`w`, one or more literal backslashes, and one more literal backslash. -/
def brokenScopePat : Pat Str :=
  pbind (pch (· = '\\')) fun c1 =>
  pbind (pch (· = '\\')) fun c2 =>
  pbind (pch (· = 'w')) fun c3 =>
  pbind (pruns1 (· = '\\')) fun run =>
  pmap (fun c5 => c1 :: c2 :: c3 :: (run ++ [c5])) (pch (· = '\\'))

/-- JS `String.prototype.replace` with a (non-global) regex pattern and a
plain replacement string: replace the first match, if any. -/
def replaceFirstHitBy (p : Pat Str) (s rep : Str) : Str :=
  match findFirst p s with
  | none => s
  | some (i, _, len) => s.take i ++ rep ++ s.drop (i + len)

/-- Source string of `ENUM_PATTERNS.php81Enum`. -/
def php81EnumSrc : Str :=
  str "\\$(\\w+)\\s*=\\s*([A-Z][a-zA-Z0-9_]+)::([A-Z_][A-Z0-9_]*)"

/-- Source string of `ENUM_PATTERNS.traditionalEnum` (textually identical
to `php81Enum` in the pattern catalog). -/
def traditionalEnumSrc : Str :=
  str "\\$(\\w+)\\s*=\\s*([A-Z][a-zA-Z0-9_]+)::([A-Z_][A-Z0-9_]*)"

/-- Source string of `ENUM_PATTERNS.enumMethod`. -/
def enumMethodSrc : Str :=
  str "\\$(\\w+)\\s*=\\s*([A-Z][a-zA-Z0-9_]+)::(from|tryFrom)\\s*\\("

/-!  ## Data model (`scan-controller.ts`)

`Record<string, string>` member maps are association lists with the JS
property-assignment semantics (`setProp`: update in place, else append;
`mergeSpread`: object spread, later keys override).  `BladeVarInfo` carries
the six fields every embedded code path sets (`docComment` and the PHP
namespace field are never populated in these paths).  The host filesystem
and workspace are an `Env`: `read p = some content` iff `fs.existsSync(p)`
and `fs.readFileSync(p)` succeeds with `content`; `root` is
`vscode.workspace.workspaceFolders?.[0]?.uri?.fsPath` and `cwd` is
`process.cwd()`. -/

/-- JS `Record<string, string>`. -/
abbrev Props := List (Str × Str)

/-- Look a key up (JS property read). -/
def getProp (ps : Props) (k : Str) : Option Str :=
  (ps.find? (fun p => p.1 = k)).map (·.2)

/-- JS property assignment: update the value in place if the key exists,
otherwise append. -/
def setProp : Props → Str → Str → Props
  | [], k, v => [(k, v)]
  | (k', v') :: rest, k, v =>
    if k' = k then (k', v) :: rest else (k', v') :: setProp rest k v

/-- Assign a list of pairs in order (loops of `properties[x] = y`, and
`Object.assign`). -/
def setProps (ps : Props) (adds : List (Str × Str)) : Props :=
  adds.foldl (fun a kv => setProp a kv.1 kv.2) ps

/-- JS object spread of two maps: the second overrides on collisions. -/
def mergeSpread (a b : Props) : Props := setProps a b

/-- Host environment: workspace root, current directory, filesystem. -/
structure Env where
  root : Option Str
  cwd : Str
  read : Str → Option Str

/-- The variable record (`BladeVarInfo`) produced by the extraction
engine. -/
structure BladeVarInfo where
  name : Str
  source : Str
  jumpTargetUri : Str
  definedInPath : Str
  type : Str
  properties : Props
deriving Repr, DecidableEq

/-- Left brace character (written by code point to keep brace characters
out of the literals). -/
def lbr : Char := Char.ofNat 123

/-- Right brace character. -/
def rbr : Char := Char.ofNat 125

/-- First match of a recognizer in a string, returning its payload
(JS `s.match(p)?.[1]` for recognizers whose payload is the group). -/
def findFirstGroup {α : Type} (p : Pat α) (s : Str) : Option α :=
  (findFirst p s).map (fun r => r.2.1)

/-!  ## Pattern catalog (`php-patterns.ts`), transcribed recognizers -/

/-- `VIEW_CALL_PATTERNS.arraySyntax`:
`view\s*\(\s*['"]([^'"]+)['"]\s*,\s*\[([^\]]+)\]\s*\)`; payload =
(view name, array body). -/
def arrayFormPat : Pat (Str × Str) :=
  pbind (plit (str "view")) fun _ =>
  pbind (pruns isWsChar) fun _ =>
  pbind (pch (· = '(')) fun _ =>
  pbind (pruns isWsChar) fun _ =>
  pbind (pch isQuoteCh) fun _ =>
  pbind (pruns1 (fun c => !isQuoteCh c)) fun viewName =>
  pbind (pch isQuoteCh) fun _ =>
  pbind (pruns isWsChar) fun _ =>
  pbind (pch (· = ',')) fun _ =>
  pbind (pruns isWsChar) fun _ =>
  pbind (pch (· = '[')) fun _ =>
  pbind (pruns1 (fun c => !(c = ']'))) fun vars =>
  pbind (pch (· = ']')) fun _ =>
  pbind (pruns isWsChar) fun _ =>
  pmap (fun _ => (viewName, vars)) (pch (· = ')'))

/-- `VIEW_CALL_PATTERNS.compactSyntax`:
`view\s*\(\s*['"]([^'"]+)['"]\s*,\s*compact\s*\(\s*([^)]+)\s*\)\s*\)`;
payload = (view name, compact arguments). -/
def compactFormPat : Pat (Str × Str) :=
  pbind (plit (str "view")) fun _ =>
  pbind (pruns isWsChar) fun _ =>
  pbind (pch (· = '(')) fun _ =>
  pbind (pruns isWsChar) fun _ =>
  pbind (pch isQuoteCh) fun _ =>
  pbind (pruns1 (fun c => !isQuoteCh c)) fun viewName =>
  pbind (pch isQuoteCh) fun _ =>
  pbind (pruns isWsChar) fun _ =>
  pbind (pch (· = ',')) fun _ =>
  pbind (pruns isWsChar) fun _ =>
  pbind (plit (str "compact")) fun _ =>
  pbind (pruns isWsChar) fun _ =>
  pbind (pch (· = '(')) fun _ =>
  pbind (pruns isWsChar) fun _ =>
  pbind (pruns1 (fun c => !(c = ')'))) fun vars =>
  pbind (pruns isWsChar) fun _ =>
  pbind (pch (· = ')')) fun _ =>
  pbind (pruns isWsChar) fun _ =>
  pmap (fun _ => (viewName, vars)) (pch (· = ')'))

/-- `VARIABLE_PATTERNS.arrayKeyValue`:
`['"]([^'"]+)['"]\s*=>\s*\$([a-zA-Z_][a-zA-Z0-9_]*)`; payload =
(key, variable name without the dollar). -/
def arrayKVPat : Pat (Str × Str) :=
  pbind (pch isQuoteCh) fun _ =>
  pbind (pruns1 (fun c => !isQuoteCh c)) fun key =>
  pbind (pch isQuoteCh) fun _ =>
  pbind (pruns isWsChar) fun _ =>
  pbind (plit (str "=>")) fun _ =>
  pbind (pruns isWsChar) fun _ =>
  pbind (pch (· = '$')) fun _ =>
  pbind (pch isAlphaU) fun c0 =>
  pmap (fun cs => (key, c0 :: cs)) (pruns isAlnumU)

/-- `createForeachPattern(collectionVar)`:
`@fore(?:ach|lse)\s*\(\s*\$VAR\s+as\s+\$(\w+)\s*\)` with the collection
variable (minus its `$`) interpolated; payload = item variable name. -/
def foreachTplPat (v : Str) : Pat Str :=
  pbind (plit (str "@fore")) fun _ =>
  pbind (palt (plit (str "ach")) (plit (str "lse"))) fun _ =>
  pbind (pruns isWsChar) fun _ =>
  pbind (pch (· = '(')) fun _ =>
  pbind (pruns isWsChar) fun _ =>
  pbind (pch (· = '$')) fun _ =>
  pbind (plit v) fun _ =>
  pbind (pruns1 isWsChar) fun _ =>
  pbind (plit (str "as")) fun _ =>
  pbind (pruns1 isWsChar) fun _ =>
  pbind (pch (· = '$')) fun _ =>
  pbind (pruns1 isWordChar) fun item =>
  pbind (pruns isWsChar) fun _ =>
  pmap (fun _ => item) (pch (· = ')'))

/-- `CLASS_PATTERNS.enumDeclaration`: `enum\s+[A-Z][a-zA-Z0-9_]*`. -/
def enumDeclPat : Pat Unit :=
  pbind (plit (str "enum")) fun _ =>
  pbind (pruns1 isWsChar) fun _ =>
  pbind (pch isUpperChar) fun _ =>
  pmap (fun _ => ()) (pruns isAlnumU)

/-- The submatch regex `enum\s+([A-Z][a-zA-Z0-9_]*)` used to recover the
enum's own name; payload = name. -/
def enumNamePat : Pat Str :=
  pbind (plit (str "enum")) fun _ =>
  pbind (pruns1 isWsChar) fun _ =>
  pbind (pch isUpperChar) fun c0 =>
  pmap (fun cs => c0 :: cs) (pruns isAlnumU)

/-- `CLASS_PATTERNS.constant`:
`const\s+([A-Z_][A-Z0-9_]*)\s*=\s*['"]([^'"]*)['"]`; payload = constant
name. -/
def constantPat : Pat Str :=
  pbind (plit (str "const")) fun _ =>
  pbind (pruns1 isWsChar) fun _ =>
  pbind (pch isUpperU) fun c0 =>
  pbind (pruns isUpperDigitU) fun cs =>
  pbind (pruns isWsChar) fun _ =>
  pbind (pch (· = '=')) fun _ =>
  pbind (pruns isWsChar) fun _ =>
  pbind (pch isQuoteCh) fun _ =>
  pbind (pruns (fun c => !isQuoteCh c)) fun _ =>
  pmap (fun _ => c0 :: cs) (pch isQuoteCh)

/-- `CLASS_PATTERNS.enumCase`:
`case\s+([A-Z_][A-Z0-9_]*)\s*(?:=\s*['"]([^'"]*)['"]\s*)?;`; payload =
case name (the value group is unused by the source). -/
def enumCasePat : Pat Str :=
  pbind (plit (str "case")) fun _ =>
  pbind (pruns1 isWsChar) fun _ =>
  pbind (pch isUpperU) fun c0 =>
  pbind (pruns isUpperDigitU) fun cs =>
  pbind (pruns isWsChar) fun _ =>
  pbind (popt (
    pbind (pch (· = '=')) fun _ =>
    pbind (pruns isWsChar) fun _ =>
    pbind (pch isQuoteCh) fun _ =>
    pbind (pruns (fun c => !isQuoteCh c)) fun _ =>
    pbind (pch isQuoteCh) fun _ =>
    pmap (fun _ => ()) (pruns isWsChar))) fun _ =>
  pmap (fun _ => c0 :: cs) (pch (· = ';'))

/-- `CLASS_PATTERNS.methodWithReturnType`:
`public\s+function\s+(\w+)\s*\([^)]*\)\s*:\s*(\w+)\s*\{`; payload =
(method name, return type). -/
def methodRetPat : Pat (Str × Str) :=
  pbind (plit (str "public")) fun _ =>
  pbind (pruns1 isWsChar) fun _ =>
  pbind (plit (str "function")) fun _ =>
  pbind (pruns1 isWsChar) fun _ =>
  pbind (pruns1 isWordChar) fun name =>
  pbind (pruns isWsChar) fun _ =>
  pbind (pch (· = '(')) fun _ =>
  pbind (pruns (fun c => !(c = ')'))) fun _ =>
  pbind (pch (· = ')')) fun _ =>
  pbind (pruns isWsChar) fun _ =>
  pbind (pch (· = ':')) fun _ =>
  pbind (pruns isWsChar) fun _ =>
  pbind (pruns1 isWordChar) fun ret =>
  pbind (pruns isWsChar) fun _ =>
  pmap (fun _ => (name, ret)) (pch (· = lbr))

/-- `CLASS_PATTERNS.methodWithoutReturnType`:
`public\s+function\s+(\w+)\s*\([^)]*\)\s*\{([^}]+)\}`; payload =
(method name, body). -/
def methodBodyPat : Pat (Str × Str) :=
  pbind (plit (str "public")) fun _ =>
  pbind (pruns1 isWsChar) fun _ =>
  pbind (plit (str "function")) fun _ =>
  pbind (pruns1 isWsChar) fun _ =>
  pbind (pruns1 isWordChar) fun name =>
  pbind (pruns isWsChar) fun _ =>
  pbind (pch (· = '(')) fun _ =>
  pbind (pruns (fun c => !(c = ')'))) fun _ =>
  pbind (pch (· = ')')) fun _ =>
  pbind (pruns isWsChar) fun _ =>
  pbind (pch (· = lbr)) fun _ =>
  pbind (pruns1 (fun c => !(c = rbr))) fun body =>
  pmap (fun _ => (name, body)) (pch (· = rbr))

/-- Shared shape of the three `RELATION_PATTERNS` entries:
`public\s+function\s+(\w+)\s*\([^)]*\)\s*(?::\s*\w+)?\s*\{[^}]*return\s+\$this->(…)\s*\(`
with the relation-word alternation supplied; payload = method name. -/
def relPat (relWords : Pat Unit) : Pat Str :=
  pbind (plit (str "public")) fun _ =>
  pbind (pruns1 isWsChar) fun _ =>
  pbind (plit (str "function")) fun _ =>
  pbind (pruns1 isWsChar) fun _ =>
  pbind (pruns1 isWordChar) fun name =>
  pbind (pruns isWsChar) fun _ =>
  pbind (pch (· = '(')) fun _ =>
  pbind (pruns (fun c => !(c = ')'))) fun _ =>
  pbind (pch (· = ')')) fun _ =>
  pbind (pruns isWsChar) fun _ =>
  pbind (popt (
    pbind (pch (· = ':')) fun _ =>
    pbind (pruns isWsChar) fun _ =>
    pmap (fun _ => ()) (pruns1 isWordChar))) fun _ =>
  pbind (pruns isWsChar) fun _ =>
  pbind (pch (· = lbr)) fun _ =>
  pbind (pruns (fun c => !(c = rbr))) fun _ =>
  pbind (plit (str "return")) fun _ =>
  pbind (pruns1 isWsChar) fun _ =>
  pbind (plit (str "$this->")) fun _ =>
  pbind relWords fun _ =>
  pbind (pruns isWsChar) fun _ =>
  pmap (fun _ => name) (pch (· = '('))

/-- `(hasOne|belongsTo)`. -/
def relSingleWords : Pat Unit := palt (plit (str "hasOne")) (plit (str "belongsTo"))

/-- `(hasMany|belongsToMany)`. -/
def relCollectionWords : Pat Unit :=
  palt (plit (str "hasMany")) (plit (str "belongsToMany"))

/-- `(morphTo|morphOne|morphMany)`. -/
def relMorphWords : Pat Unit :=
  palt (plit (str "morphTo")) (palt (plit (str "morphOne")) (plit (str "morphMany")))

/-- The submatch regex `\$this->\w+\s*\(\s*([A-Z]\w+)::class` used to
recover the related model's name; payload = class name. -/
def thisRelClassPat : Pat Str :=
  pbind (plit (str "$this->")) fun _ =>
  pbind (pruns1 isWordChar) fun _ =>
  pbind (pruns isWsChar) fun _ =>
  pbind (pch (· = '(')) fun _ =>
  pbind (pruns isWsChar) fun _ =>
  pbind (pch isUpperChar) fun c0 =>
  pbind (pruns1 isWordChar) fun cs =>
  pmap (fun _ => c0 :: cs) (plit (str "::class"))

/-- `CLASS_PATTERNS.fillableArray`:
`protected\s+\$fillable\s*=\s*\[([\s\S]*?)\]`; payload = array body. -/
def fillableArrayPat : Pat Str :=
  pbind (plit (str "protected")) fun _ =>
  pbind (pruns1 isWsChar) fun _ =>
  pbind (plit (str "$fillable")) fun _ =>
  pbind (pruns isWsChar) fun _ =>
  pbind (pch (· = '=')) fun _ =>
  pbind (pruns isWsChar) fun _ =>
  pbind (pch (· = '[')) fun _ =>
  pbind (plazy (fun _ => true)) fun body =>
  pmap (fun _ => body) (pch (· = ']'))

/-- `CLASS_PATTERNS.castsArray`: `protected\s+\$casts\s*=\s*\[([\s\S]*?)\]`. -/
def castsArrayPat : Pat Str :=
  pbind (plit (str "protected")) fun _ =>
  pbind (pruns1 isWsChar) fun _ =>
  pbind (plit (str "$casts")) fun _ =>
  pbind (pruns isWsChar) fun _ =>
  pbind (pch (· = '=')) fun _ =>
  pbind (pruns isWsChar) fun _ =>
  pbind (pch (· = '[')) fun _ =>
  pbind (plazy (fun _ => true)) fun body =>
  pmap (fun _ => body) (pch (· = ']'))

/-- `CLASS_PATTERNS.datesArray`: `protected\s+\$dates\s*=\s*\[([\s\S]*?)\]`. -/
def datesArrayPat : Pat Str :=
  pbind (plit (str "protected")) fun _ =>
  pbind (pruns1 isWsChar) fun _ =>
  pbind (plit (str "$dates")) fun _ =>
  pbind (pruns isWsChar) fun _ =>
  pbind (pch (· = '=')) fun _ =>
  pbind (pruns isWsChar) fun _ =>
  pbind (pch (· = '[')) fun _ =>
  pbind (plazy (fun _ => true)) fun body =>
  pmap (fun _ => body) (pch (· = ']'))

/-- The extraction regex `'([^']+)'` run over array bodies (the source
takes the full `g` matches and strips their quotes; the inner group is the
same string); payload = quoted text. -/
def quotedItemPat : Pat Str :=
  pbind (pch (· = '\'')) fun _ =>
  pbind (pruns1 (fun c => !(c = '\''))) fun inner =>
  pmap (fun _ => inner) (pch (· = '\''))

/-- The per-line cast regex `'([^']+)'\s*=>\s*'([^']+)'`; payload =
(field, cast type). -/
def castLinePat : Pat (Str × Str) :=
  pbind (pch (· = '\'')) fun _ =>
  pbind (pruns1 (fun c => !(c = '\''))) fun f =>
  pbind (pch (· = '\'')) fun _ =>
  pbind (pruns isWsChar) fun _ =>
  pbind (plit (str "=>")) fun _ =>
  pbind (pruns isWsChar) fun _ =>
  pbind (pch (· = '\'')) fun _ =>
  pbind (pruns1 (fun c => !(c = '\''))) fun t =>
  pmap (fun _ => (f, t)) (pch (· = '\''))

/-- `CLASS_PATTERNS.phpDocProperty`:
`\*\s*@property\s+(\w+(?:\[\])?)\s+\$(\w+)`; payload =
(documented type, field). -/
def phpDocPropPat : Pat (Str × Str) :=
  pbind (pch (· = '*')) fun _ =>
  pbind (pruns isWsChar) fun _ =>
  pbind (plit (str "@property")) fun _ =>
  pbind (pruns1 isWsChar) fun _ =>
  pbind (pruns1 isWordChar) fun w =>
  pbind (popt (plit (str "[]"))) fun brs =>
  pbind (pruns1 isWsChar) fun _ =>
  pbind (pch (· = '$')) fun _ =>
  pmap (fun f => ((w ++ match brs with | some _ => str "[]" | none => []), f))
    (pruns1 isWordChar)

/-!  ## `scan-controller.ts`: template path and enum/model file resolution -/

/-- `convertToBladeFilePath`: dots become slashes, the result is anchored
under `file://{workspaceRoot}/resources/views` and suffixed `.blade.php`;
an empty (falsy) dot-notation name yields nothing.  `workspaceRoot` falls
back to `process.cwd()`. -/
def convertToBladeFilePath (root : Option Str) (cwd : Str) (dotNotationPath : Str) :
    Option Str :=
  if dotNotationPath.isEmpty then none
  else
    let relativePath := dotNotationPath.map (fun c => if c = '.' then '/' else c)
    let workspaceRoot := root.getD cwd
    some (str "file://" ++ workspaceRoot ++ str "/resources/views/" ++
      relativePath ++ str ".blade.php")

/-- `isValidEnumClass`: some conventional Enum path holds a file whose
content matches `enum\s+[A-Z]…` (an existing file whose content does not
match lets the loop continue). -/
def isValidEnumClass (env : Env) (className : Str) : Bool :=
  match env.root with
  | none => false
  | some root =>
    [root ++ str "/app/Enums/" ++ className ++ str ".php",
     root ++ str "/app/Models/Enums/" ++ className ++ str ".php",
     root ++ str "/app/" ++ className ++ str ".php"].any
      (fun p =>
        match env.read p with
        | some content => testPat enumDeclPat content
        | none => false)

/-- `isTraditionalEnumClass`: some conventional class path holds a file
with at least two `const NAME = '…'` declarations. -/
def isTraditionalEnumClass (env : Env) (className : Str) : Bool :=
  match env.root with
  | none => false
  | some root =>
    [root ++ str "/app/Enums/" ++ className ++ str ".php",
     root ++ str "/app/Models/Enums/" ++ className ++ str ".php",
     root ++ str "/app/" ++ className ++ str ".php",
     root ++ str "/app/Models/" ++ className ++ str ".php"].any
      (fun p =>
        match env.read p with
        | some content => (scanAll constantPat content).length ≥ 2
        | none => false)

/-- Return-type mapping of `parseEnumMethods` for methods with explicit
return types (`self`/`static` resolve to the enum's own declared name). -/
def mapRetType (enumContent ret : Str) : Str :=
  let l := lowerStr ret
  if l = str "string" then str "string"
  else if l = str "int" || l = str "integer" then str "int"
  else if l = str "bool" || l = str "boolean" then str "bool"
  else if l = str "array" then str "array"
  else if l = str "self" || l = str "static" then
    match findFirstGroup enumNamePat enumContent with
    | some n => n
    | none => str "mixed"
  else ret

/-- The body patterns `return\s+['"][^'"]*['"]`. -/
def retStrPat : Pat Unit :=
  pbind (plit (str "return")) fun _ =>
  pbind (pruns1 isWsChar) fun _ =>
  pbind (pch isQuoteCh) fun _ =>
  pbind (pruns (fun c => !isQuoteCh c)) fun _ =>
  pmap (fun _ => ()) (pch isQuoteCh)

/-- `return\s+\d+`. -/
def retNumPat : Pat Unit :=
  pbind (plit (str "return")) fun _ =>
  pbind (pruns1 isWsChar) fun _ =>
  pmap (fun _ => ()) (pruns1 isDigitChar)

/-- `return\s+(true|false)`. -/
def retBoolPat : Pat Unit :=
  pbind (plit (str "return")) fun _ =>
  pbind (pruns1 isWsChar) fun _ =>
  pmap (fun _ => ()) (palt (plit (str "true")) (plit (str "false")))

/-- `return\s+\[`. -/
def retArrPat : Pat Unit :=
  pbind (plit (str "return")) fun _ =>
  pbind (pruns1 isWsChar) fun _ =>
  pmap (fun _ => ()) (pch (· = '['))

/-- `return\s+\$this`. -/
def retThisPat : Pat Unit :=
  pbind (plit (str "return")) fun _ =>
  pbind (pruns1 isWsChar) fun _ =>
  pmap (fun _ => ()) (plit (str "$this"))

/-- Return-type inference of `parseEnumMethods` for methods without an
explicit return type, from the body's first matching `return` shape. -/
def inferBodyRet (enumContent body : Str) : Str :=
  if testPat retStrPat body then str "string"
  else if testPat retNumPat body then str "int"
  else if testPat retBoolPat body then str "bool"
  else if testPat retArrPat body then str "array"
  else if testPat retThisPat body then
    match findFirstGroup enumNamePat enumContent with
    | some n => n
    | none => str "mixed"
  else str "mixed"

/-- `parseEnumMethods`: explicit-return-type methods first, then methods
without one (skipped when already present). -/
def parseEnumMethods (enumContent : Str) : Props :=
  let explicit := (scanAll methodRetPat enumContent).foldl
    (fun ms r => setProp ms r.2.1.1 (mapRetType enumContent r.2.1.2)) []
  (scanAll methodBodyPat enumContent).foldl
    (fun ms r =>
      if (getProp ms r.2.1.1).isSome then ms
      else setProp ms r.2.1.1 (inferBodyRet enumContent r.2.1.2)) explicit

/-- `parseEnumProperties`: read the first existing conventional Enum file;
native enums contribute their cases, the five standard members and their
custom methods; otherwise the constants are treated as a traditional
enum. -/
def parseEnumProperties (env : Env) (enumName : Str) : Props :=
  match env.root with
  | none => []
  | some root =>
    match
      [root ++ str "/app/Enums/" ++ enumName ++ str ".php",
       root ++ str "/app/Models/Enums/" ++ enumName ++ str ".php",
       root ++ str "/app/" ++ enumName ++ str ".php"].findSome? env.read with
    | none => []
    | some content =>
      if content.isEmpty then []
      else if testPat enumDeclPat content then
        let cases := (scanAll enumCasePat content).foldl
          (fun ps r => setProp ps r.2.1 enumName) []
        let std := setProps cases
          [(str "name", str "string"), (str "value", str "mixed"),
           (str "cases", str "array<" ++ enumName ++ str ">"),
           (str "from", enumName), (str "tryFrom", enumName ++ str "|null")]
        setProps std (parseEnumMethods content)
      else
        let consts := (scanAll constantPat content).foldl
          (fun ps r => setProp ps r.2.1 (str "string")) []
        setProps consts (parseEnumMethods content)

/-- One relation-pattern pass of `parseRelationMethods`: for every match,
recover the related class from `\$this->\w+\s*\(\s*([A-Z]\w+)::class` in
the match text, falling back to the generic `Model`/`Collection`. -/
def applyRelPat (content : Str) (pat : Pat Str) (isCollection : Bool) (ps : Props) :
    Props :=
  (scanAll pat content).foldl
    (fun acc r =>
      let m0 := subStr content r.1 r.2.2
      match findFirstGroup thisRelClassPat m0 with
      | some cls =>
        setProp acc r.2.1
          (if isCollection then str "Collection<" ++ cls ++ str ">" else cls)
      | none =>
        setProp acc r.2.1 (if isCollection then str "Collection" else str "Model"))
    ps

/-- `parseRelationMethods`: the three `RELATION_PATTERNS` in catalog order
(single, collection, morph — morph resolves like single). -/
def parseRelationMethods (modelContent : Str) : Props :=
  applyRelPat modelContent (relPat relMorphWords) false
    (applyRelPat modelContent (relPat relCollectionWords) true
      (applyRelPat modelContent (relPat relSingleWords) false []))

/-- The anchored test `/^[A-Z][a-zA-Z0-9_\\]*$/` on a cast value. -/
def anchoredClassName (s : Str) : Bool :=
  match s with
  | [] => false
  | c :: rest => isUpperChar c && rest.all (fun d => isAlnumU d || d = '\\')

/-- Cast-type mapping of `parseModelProperties` (the default arm detects
custom enum classes through the filesystem). -/
def castTypeFor (env : Env) (castType : Str) : Str :=
  if castType = str "datetime" || castType = str "date" || castType = str "timestamp"
  then str "Carbon"
  else if castType = str "integer" || castType = str "int" then str "int"
  else if castType = str "boolean" || castType = str "bool" then str "bool"
  else if castType = str "float" || castType = str "double" || castType = str "decimal"
  then str "float"
  else if castType = str "array" || castType = str "json" then str "array"
  else if anchoredClassName castType then
    let lastSeg := ((splitOnCh '\\' castType).getLastD [])
    let enumClassName := if lastSeg.isEmpty then castType else lastSeg
    if isValidEnumClass env enumClassName || isTraditionalEnumClass env enumClassName
    then enumClassName
    else str "string"
  else str "string"

/-- PHPDoc `@property` type mapping (substring checks, in source order). -/
def phpDocTypeFor (t : Str) : Str :=
  if containsSub t (str "int") || containsSub t (str "integer") then str "int"
  else if containsSub t (str "bool") || containsSub t (str "boolean") then str "bool"
  else if containsSub t (str "float") || containsSub t (str "double") then str "float"
  else if containsSub t (str "array") || containsSub t (str "[]") then str "array"
  else if containsSub t (str "Carbon") || containsSub t (str "DateTime") then str "Carbon"
  else str "string"

/-- The fields extracted from a Model file before the baseline is merged:
`$fillable`, `$casts`, `$dates`, PHPDoc `@property` lines, then relation
methods, in source order. -/
def modelParsedProps (env : Env) (content : Str) : Props :=
  let p1 :=
    match findFirstGroup fillableArrayPat content with
    | none => []
    | some body =>
      (scanAll quotedItemPat body).foldl (fun ps r => setProp ps r.2.1 (str "string")) []
  let p2 :=
    match findFirstGroup castsArrayPat content with
    | none => p1
    | some body =>
      (splitOnCh ',' body).foldl
        (fun ps line =>
          match findFirstGroup castLinePat line with
          | none => ps
          | some ft => setProp ps ft.1 (castTypeFor env ft.2)) p1
  let p3 :=
    match findFirstGroup datesArrayPat content with
    | none => p2
    | some body =>
      (scanAll quotedItemPat body).foldl (fun ps r => setProp ps r.2.1 (str "Carbon")) p2
  let p4 := (scanAll phpDocPropPat content).foldl
    (fun ps r => setProp ps r.2.1.2 (phpDocTypeFor r.2.1.1)) p3
  setProps p4 (parseRelationMethods content)

/-- The fixed baseline of standard Eloquent members added by
`parseModelProperties` (`Self`-valued members carry the model's own
name). -/
def modelBaseProps (modelName : Str) : List (Str × Str) :=
  [(str "id", str "int"), (str "created_at", str "Carbon"),
   (str "updated_at", str "Carbon"), (str "save", str "bool"),
   (str "delete", str "bool"), (str "update", str "bool"),
   (str "fresh", modelName), (str "refresh", modelName),
   (str "toArray", str "array"), (str "toJson", str "string"),
   (str "getAttribute", str "mixed"), (str "setAttribute", str "void"),
   (str "fill", modelName), (str "isDirty", str "bool"),
   (str "isClean", str "bool"), (str "wasRecentlyCreated", str "bool"),
   (str "exists", str "bool"), (str "load", modelName),
   (str "loadMissing", modelName), (str "with", modelName)]

/-- The Model-file lookup of `parseModelProperties`: first existing file
among the conventional Model paths. -/
def findModelContent (env : Env) (modelName : Str) : Option Str :=
  match env.root with
  | none => none
  | some root =>
    [root ++ str "/app/Models/" ++ modelName ++ str ".php",
     root ++ str "/app/" ++ modelName ++ str ".php"].findSome? env.read

/-- `parseModelProperties`: parsed fields spread first, the fixed baseline
spread last (`return { ...properties, ...baseProperties }`). -/
def parseModelProperties (env : Env) (modelName : Str) : Props :=
  match findModelContent env modelName with
  | none => []
  | some content =>
    if content.isEmpty then []
    else mergeSpread (modelParsedProps env content) (modelBaseProps modelName)

/-!  ## `scan-controller.ts`: `inferTypeProperties` and its fixed maps -/

/-- The fixed `Collection` member map. -/
def collectionProps : Props :=
  [(str "count", str "int"), (str "first", str "mixed"), (str "last", str "mixed"),
   (str "isEmpty", str "bool"), (str "isNotEmpty", str "bool"),
   (str "map", str "Collection"), (str "filter", str "Collection"),
   (str "where", str "Collection"), (str "pluck", str "Collection"),
   (str "toArray", str "array"), (str "toJson", str "string"),
   (str "each", str "Collection"), (str "chunk", str "Collection"),
   (str "sort", str "Collection"), (str "sortBy", str "Collection"),
   (str "reverse", str "Collection"), (str "unique", str "Collection")]

/-- The fixed `Carbon` member map. -/
def carbonProps : Props :=
  [(str "format", str "string"), (str "diffForHumans", str "string"),
   (str "toDateString", str "string"), (str "toTimeString", str "string"),
   (str "toDateTimeString", str "string"), (str "timestamp", str "int"),
   (str "year", str "int"), (str "month", str "int"), (str "day", str "int"),
   (str "hour", str "int"), (str "minute", str "int"), (str "second", str "int"),
   (str "addDays", str "Carbon"), (str "subDays", str "Carbon"),
   (str "addHours", str "Carbon"), (str "subHours", str "Carbon"),
   (str "isToday", str "bool"), (str "isTomorrow", str "bool"),
   (str "isYesterday", str "bool"), (str "isPast", str "bool"),
   (str "isFuture", str "bool")]

/-- The fixed `Request` member map. -/
def requestProps : Props :=
  [(str "get", str "mixed"), (str "post", str "mixed"), (str "all", str "array"),
   (str "input", str "mixed"), (str "has", str "bool"), (str "filled", str "bool"),
   (str "missing", str "bool"), (str "only", str "array"),
   (str "except", str "array"), (str "query", str "mixed"),
   (str "file", str "mixed"), (str "hasFile", str "bool"), (str "ip", str "string"),
   (str "userAgent", str "string"), (str "url", str "string"),
   (str "fullUrl", str "string"), (str "path", str "string"),
   (str "method", str "string"), (str "isMethod", str "bool"),
   (str "ajax", str "bool"), (str "json", str "mixed"),
   (str "header", str "string")]

/-- The fixed `string` member map. -/
def stringProps : Props :=
  [(str "length", str "int"), (str "upper", str "string"),
   (str "lower", str "string"), (str "trim", str "string"),
   (str "substr", str "string"), (str "replace", str "string"),
   (str "contains", str "bool"), (str "startsWith", str "bool"),
   (str "endsWith", str "bool")]

/-- The fixed `array` member map. -/
def arrayProps : Props :=
  [(str "count", str "int"), (str "length", str "int"), (str "keys", str "array"),
   (str "values", str "array"), (str "merge", str "array"),
   (str "push", str "int"), (str "pop", str "mixed"), (str "shift", str "mixed"),
   (str "unshift", str "int"), (str "slice", str "array"),
   (str "reverse", str "array"), (str "sort", str "bool")]

/-- The `Collection<Model>` member map, specialised to the element type. -/
def collectionOfProps (modelName : Str) : Props :=
  let cOf := str "Collection<" ++ modelName ++ str ">"
  [(str "count", str "int"), (str "first", modelName), (str "last", modelName),
   (str "isEmpty", str "bool"), (str "isNotEmpty", str "bool"),
   (str "map", str "Collection"), (str "filter", cOf), (str "where", cOf),
   (str "pluck", str "Collection"), (str "toArray", str "array"),
   (str "toJson", str "string"), (str "each", cOf), (str "chunk", str "Collection"),
   (str "sort", cOf), (str "sortBy", cOf), (str "reverse", cOf),
   (str "unique", cOf), (str "take", cOf), (str "skip", cOf), (str "slice", cOf),
   (str "random", modelName), (str "shuffle", cOf), (str "groupBy", str "Collection"),
   (str "keyBy", str "Collection"), (str "forPage", cOf), (str "load", cOf),
   (str "loadMissing", cOf)]

/-- The generic Eloquent member map for capitalized class types whose own
file could not be parsed. -/
def genericModelProps (type : Str) : Props :=
  [(str "id", str "int"), (str "save", str "bool"), (str "delete", str "bool"),
   (str "update", str "bool"), (str "fresh", type), (str "refresh", type),
   (str "toArray", str "array"), (str "toJson", str "string"),
   (str "getAttribute", str "mixed"), (str "setAttribute", str "void"),
   (str "fill", type), (str "isDirty", str "bool"), (str "isClean", str "bool"),
   (str "wasRecentlyCreated", str "bool"), (str "exists", str "bool"),
   (str "created_at", str "Carbon"), (str "updated_at", str "Carbon"),
   (str "load", type), (str "loadMissing", type), (str "with", type)]

/-- Is the first character an upper-case letter (`/^[A-Z]/.test`)? -/
def headIsUpper (s : Str) : Bool :=
  match s with
  | [] => false
  | c :: _ => isUpperChar c

/-- The `switch (type)` part of `inferTypeProperties`. -/
def typePropsSwitch (type : Str) : Props :=
  if type = str "Collection" then collectionProps
  else if type = str "Carbon" then carbonProps
  else if type = str "Request" then requestProps
  else if type = str "string" then stringProps
  else if type = str "array" then arrayProps
  else if !type.isEmpty && startsWithStr type (str "Collection<")
      && endsWithStr type (str ">") then
    collectionOfProps ((type.drop 11).dropLast)
  else if !type.isEmpty && !(type = str "mixed") && headIsUpper type then
    genericModelProps type
  else []

/-- `inferTypeProperties`: class-like types first try the Enum resolution,
then the Model-file resolution, then fall through to the fixed maps. -/
def inferTypeProperties (env : Env) (type : Str) : Props :=
  if !type.isEmpty && !(type = str "mixed") && headIsUpper type then
    let enumLike := isValidEnumClass env type || isTraditionalEnumClass env type
    let enumProps := if enumLike then parseEnumProperties env type else []
    if enumLike && !enumProps.isEmpty then enumProps
    else
      let modelProps := parseModelProperties env type
      if !modelProps.isEmpty then modelProps
      else typePropsSwitch type
  else typePropsSwitch type

/-!  ## `scan-controller.ts`: type inference -/

/-- The submatch regex `([A-Z][a-zA-Z0-9_]+)::`; payload = class name. -/
def classColonPat : Pat Str :=
  pbind (pch isUpperChar) fun c0 =>
  pbind (pruns1 isAlnumU) fun cs =>
  pmap (fun _ => c0 :: cs) (plit (str "::"))

/-- The submatch regex `([A-Z][a-zA-Z0-9_]+)::query`; payload = class
name. -/
def classQueryPat : Pat Str :=
  pbind (pch isUpperChar) fun c0 =>
  pbind (pruns1 isAlnumU) fun cs =>
  pmap (fun _ => c0 :: cs) (plit (str "::query"))

/-- The submatch regex `new\s+([A-Z][a-zA-Z0-9_\\]+)`; payload = class
name (namespace separators still present). -/
def newClassPat : Pat Str :=
  pbind (plit (str "new")) fun _ =>
  pbind (pruns1 isWsChar) fun _ =>
  pbind (pch isUpperChar) fun c0 =>
  pmap (fun cs => c0 :: cs) (pruns1 (fun c => isAlnumU c || c = '\\'))

/-- The assignment head `\$VAR\s*=\s*` shared by the type-inference
patterns, with the variable name interpolated. -/
def varAssignHead (v : Str) : Pat Unit :=
  pbind (pch (· = '$')) fun _ =>
  pbind (plit v) fun _ =>
  pbind (pruns isWsChar) fun _ =>
  pbind (pch (· = '=')) fun _ =>
  pmap (fun _ => ()) (pruns isWsChar)

/-- `\$VAR\s*=\s*([A-Z][a-zA-Z0-9_]+)::query\(\)[\s\S]*?->get\(\);?`. -/
def eloquentQueryPat (v : Str) : Pat Unit :=
  pbind (varAssignHead v) fun _ =>
  pbind (pch isUpperChar) fun _ =>
  pbind (pruns1 isAlnumU) fun _ =>
  pbind (plit (str "::query()")) fun _ =>
  pbind (plazy (fun _ => true)) fun _ =>
  pbind (plit (str "->get()")) fun _ =>
  pmap (fun _ => ()) (popt (pch (· = ';')))

/-- `\$VAR\s*=\s*([A-Z][a-zA-Z0-9_]+)::(find|first|create|make)\s*\(`. -/
def singleModelPat (v : Str) : Pat Unit :=
  pbind (varAssignHead v) fun _ =>
  pbind (pch isUpperChar) fun _ =>
  pbind (pruns1 isAlnumU) fun _ =>
  pbind (plit (str "::")) fun _ =>
  pbind (palt (plit (str "find"))
    (palt (plit (str "first")) (palt (plit (str "create")) (plit (str "make"))))) fun _ =>
  pbind (pruns isWsChar) fun _ =>
  pmap (fun _ => ()) (pch (· = '('))

/-- `\$VAR\s*=\s*([A-Z][a-zA-Z0-9_]+)::(get|all|where)[\s\S]*?->get\(\)`. -/
def collectionModelPat (v : Str) : Pat Unit :=
  pbind (varAssignHead v) fun _ =>
  pbind (pch isUpperChar) fun _ =>
  pbind (pruns1 isAlnumU) fun _ =>
  pbind (plit (str "::")) fun _ =>
  pbind (palt (plit (str "get")) (palt (plit (str "all")) (plit (str "where")))) fun _ =>
  pbind (plazy (fun _ => true)) fun _ =>
  pmap (fun _ => ()) (plit (str "->get()"))

/-- `\$VAR\s*=\s*([A-Z][a-zA-Z0-9_]+)::where[\s\S]*?get\(\)`. -/
def whereGetPat (v : Str) : Pat Unit :=
  pbind (varAssignHead v) fun _ =>
  pbind (pch isUpperChar) fun _ =>
  pbind (pruns1 isAlnumU) fun _ =>
  pbind (plit (str "::where")) fun _ =>
  pbind (plazy (fun _ => true)) fun _ =>
  pmap (fun _ => ()) (plit (str "get()"))

/-- `\$VAR\s*=\s*new\s+([A-Z][a-zA-Z0-9_\\]+)\s*\(`. -/
def newInstPat (v : Str) : Pat Unit :=
  pbind (varAssignHead v) fun _ =>
  pbind (plit (str "new")) fun _ =>
  pbind (pruns1 isWsChar) fun _ =>
  pbind (pch isUpperChar) fun _ =>
  pbind (pruns1 (fun c => isAlnumU c || c = '\\')) fun _ =>
  pbind (pruns isWsChar) fun _ =>
  pmap (fun _ => ()) (pch (· = '('))

/-- `\$VAR\s*=\s*collect\s*\(`. -/
def collectPat (v : Str) : Pat Unit :=
  pbind (varAssignHead v) fun _ =>
  pbind (plit (str "collect")) fun _ =>
  pbind (pruns isWsChar) fun _ =>
  pmap (fun _ => ()) (pch (· = '('))

/-- `\$VAR\s*=\s*(Carbon::|now\(|today\(|\\Carbon\\Carbon::)`. -/
def carbonPat (v : Str) : Pat Unit :=
  pbind (varAssignHead v) fun _ =>
  palt (plit (str "Carbon::"))
    (palt (plit (str "now("))
      (palt (plit (str "today(")) (plit (str "\\Carbon\\Carbon::"))))

/-- `\$VAR\s*=\s*\[`. -/
def arrayLitPat (v : Str) : Pat Unit :=
  pbind (varAssignHead v) fun _ => pmap (fun _ => ()) (pch (· = '['))

/-- `\$VAR\s*=\s*['"]`. -/
def stringLitPat (v : Str) : Pat Unit :=
  pbind (varAssignHead v) fun _ => pmap (fun _ => ()) (pch isQuoteCh)

/-- `\$VAR\s*=\s*\d+`. -/
def numberLitPat (v : Str) : Pat Unit :=
  pbind (varAssignHead v) fun _ => pmap (fun _ => ()) (pruns1 isDigitChar)

/-- `\$VAR\s*=\s*(true|false)`. -/
def boolLitPat (v : Str) : Pat Unit :=
  pbind (varAssignHead v) fun _ =>
  palt (plit (str "true")) (plit (str "false"))

/-- `\$VAR\s*=\s*\$request`. -/
def requestPat (v : Str) : Pat Unit :=
  pbind (varAssignHead v) fun _ => plit (str "$request")

/-- Full text of the first match (`code.match(p)[0]`). -/
def matchedSub {α : Type} (code : Str) (p : Pat α) : Option Str :=
  (findFirst p code).map (fun r => subStr code r.1 r.2.2)

/-- `inferEnumType`: the three `ENUM_PATTERNS` sources, each put through
the `.replace(/\\(\\w\\+\\)/, varName)` scoping step, compiled and matched
against the whole Controller text; the class name is recovered from the
first full match and checked against the filesystem.  A candidate that
fails the filesystem check falls through to the next step. -/
def inferEnumType (env : Env) (code varName : Str) : Option Str :=
  let step (src : Str) (check : Str → Bool) : Option Str :=
    match (matchAllSrc (replaceFirstHitBy brokenScopePat src varName) code).head? with
    | none => none
    | some m =>
      match findFirstGroup classColonPat m with
      | none => none
      | some n => if check n then some n else none
  match step php81EnumSrc (fun n => isValidEnumClass env n) with
  | some n => some n
  | none =>
    match step traditionalEnumSrc (fun n => isTraditionalEnumClass env n) with
    | some n => some n
    | none => step enumMethodSrc (fun n => isValidEnumClass env n)

/-- `inferVariableType`: enum detection first, then the Eloquent
query-builder pattern, then the catalog patterns in source order; `mixed`
when nothing applies. -/
def inferVariableType (env : Env) (code varName : Str) : Str :=
  match inferEnumType env code varName with
  | some t => t
  | none =>
    let rEloquent : Option Str :=
      match matchedSub code (eloquentQueryPat varName) with
      | none => none
      | some m0 =>
        (findFirstGroup classQueryPat m0).map
          (fun n => str "Collection<" ++ n ++ str ">")
    match rEloquent with
    | some t => t
    | none =>
      let rSingle : Option Str :=
        match matchedSub code (singleModelPat varName) with
        | none => none
        | some m0 => findFirstGroup classColonPat m0
      match rSingle with
      | some t => t
      | none =>
        let cm : Option Str :=
          match matchedSub code (collectionModelPat varName) with
          | some m0 => some m0
          | none => matchedSub code (whereGetPat varName)
        let rColl : Option Str :=
          match cm with
          | none => none
          | some m0 =>
            (findFirstGroup classColonPat m0).map
              (fun n => str "Collection<" ++ n ++ str ">")
        match rColl with
        | some t => t
        | none =>
          let rNew : Option Str :=
            match matchedSub code (newInstPat varName) with
            | none => none
            | some m0 =>
              (findFirstGroup newClassPat m0).map (fun n => removeChars (· = '\\') n)
          match rNew with
          | some t => t
          | none =>
            if testPat (collectPat varName) code then str "Collection"
            else if testPat (carbonPat varName) code then str "Carbon"
            else if testPat (arrayLitPat varName) code then str "array"
            else if testPat (stringLitPat varName) code then str "string"
            else if testPat (numberLitPat varName) code then str "int"
            else if testPat (boolLitPat varName) code then str "bool"
            else if testPat (requestPat varName) code then str "Request"
            else str "mixed"

/-- `extractForeachVariables`: strip the `file://` scheme, read the Blade
template (missing or unreadable files yield nothing), collect the distinct
item variables of `@foreach`/`@forelse` directives over the collection
variable. -/
def extractForeachVariables (env : Env) (bladeFilePath collectionVar : Str) :
    List Str :=
  let filePath := replaceFirstSub bladeFilePath (str "file://") []
  match env.read filePath with
  | none => []
  | some content =>
    (scanAll (foreachTplPat (collectionVar.drop 1)) content).foldl
      (fun acc r =>
        let itemVar := '$' :: r.2.1
        if acc.contains itemVar then acc else acc ++ [itemVar]) []

/-!  ## `scan-controller.ts`: the extraction engine -/

/-- The foreach-materialization block that both basic-path loops repeat
verbatim (lines 91–110 and 141–160 of `scan-controller.ts`): when the
inferred type is `Collection<T>`, read the destination template and emit
one record per distinct foreach item variable. -/
def collectionItemRecords (env : Env) (inferredType varName viewName controllerPath : Str) :
    List BladeVarInfo :=
  if startsWithStr inferredType (str "Collection<") && endsWithStr inferredType (str ">")
  then
    let itemType := (inferredType.drop 11).dropLast
    match convertToBladeFilePath env.root env.cwd viewName with
    | none => []
    | some bladeFilePath =>
      (extractForeachVariables env bladeFilePath varName).map fun foreachVar =>
        { name := foreachVar
          source := varName ++ str " (foreach item)"
          jumpTargetUri := bladeFilePath
          definedInPath := controllerPath
          type := itemType
          properties := inferTypeProperties env itemType }
  else []

/-- The basic (non-bridge) regex extraction of
`parseViewVariablesFromController`: the array-syntax loop, then the
compact-syntax loop, then the truthiness filter on `jumpTargetUri`. -/
def basicRegexRecords (env : Env) (rawCode controllerPath : Str) : List BladeVarInfo :=
  let arrayRecords := (scanAll arrayFormPat rawCode).flatMap fun r =>
    let viewName := r.2.1.1
    let varsString := r.2.1.2
    (scanAll arrayKVPat varsString).flatMap fun kv =>
      let varName := '$' :: kv.2.1.1
      let sourceVar := '$' :: kv.2.1.2
      let inferredType := inferVariableType env rawCode kv.2.1.2
      { name := varName
        source := sourceVar
        jumpTargetUri := (convertToBladeFilePath env.root env.cwd viewName).getD []
        definedInPath := controllerPath
        type := inferredType
        properties := inferTypeProperties env inferredType }
      :: collectionItemRecords env inferredType varName viewName controllerPath
  let compactRecords := (scanAll compactFormPat rawCode).flatMap fun r =>
    let viewName := r.2.1.1
    let varNames := (splitOnCh ',' r.2.1.2).map
      (fun v => removeChars isQuoteCh (trimStr v))
    varNames.flatMap fun vn =>
      if vn.isEmpty then []
      else
        let inferredType := inferVariableType env rawCode vn
        let fullVarName := '$' :: vn
        { name := fullVarName
          source := fullVarName
          jumpTargetUri := (convertToBladeFilePath env.root env.cwd viewName).getD []
          definedInPath := controllerPath
          type := inferredType
          properties := inferTypeProperties env inferredType }
        :: collectionItemRecords env inferredType fullVarName viewName controllerPath
  (arrayRecords ++ compactRecords).filter (fun info => !info.jumpTargetUri.isEmpty)

/-!  ## `scan-controller.ts`: the enhanced (bridge-side) regex engine -/

/-- `VIEW_CALL_PATTERNS.enhancedCall`:
`view\s*\(\s*['"]([^'"]+)['"]\s*,\s*(\[[\s\S]*?\]|\w+\([^)]*\)|compact\([^)]*\))\s*\)`;
payload = (view name, variables part). -/
def enhancedCallPat : Pat (Str × Str) :=
  pbind (plit (str "view")) fun _ =>
  pbind (pruns isWsChar) fun _ =>
  pbind (pch (· = '(')) fun _ =>
  pbind (pruns isWsChar) fun _ =>
  pbind (pch isQuoteCh) fun _ =>
  pbind (pruns1 (fun c => !isQuoteCh c)) fun viewName =>
  pbind (pch isQuoteCh) fun _ =>
  pbind (pruns isWsChar) fun _ =>
  pbind (pch (· = ',')) fun _ =>
  pbind (pruns isWsChar) fun _ =>
  pbind
    (palt
      (pbind (pch (· = '[')) fun _ =>
       pbind (plazy (fun _ => true)) fun body =>
       pmap (fun _ => '[' :: body ++ [']']) (pch (· = ']')))
      (palt
        (pbind (pruns1 isWordChar) fun w =>
         pbind (pch (· = '(')) fun _ =>
         pbind (pruns (fun c => !(c = ')'))) fun args =>
         pmap (fun _ => w ++ '(' :: args ++ [')']) (pch (· = ')')))
        (pbind (plit (str "compact")) fun _ =>
         pbind (pch (· = '(')) fun _ =>
         pbind (pruns (fun c => !(c = ')'))) fun args =>
         pmap (fun _ => str "compact(" ++ args ++ str ")") (pch (· = ')')))))
    fun variablesPart =>
  pbind (pruns isWsChar) fun _ =>
  pmap (fun _ => (viewName, variablesPart)) (pch (· = ')'))

/-- `VARIABLE_PATTERNS.enhancedArrayVariable`:
`['"]([^'"]+)['"]\s*=>\s*(\$\w+(?:->\w+)*|\$\w+\([^)]*\)|[^,]+)` (written
with the `[a-zA-Z_][a-zA-Z0-9_]*` identifier classes of the source);
payload = (key, value expression). -/
def enhancedArrayVarPat : Pat (Str × Str) :=
  pbind (pch isQuoteCh) fun _ =>
  pbind (pruns1 (fun c => !isQuoteCh c)) fun key =>
  pbind (pch isQuoteCh) fun _ =>
  pbind (pruns isWsChar) fun _ =>
  pbind (plit (str "=>")) fun _ =>
  pbind (pruns isWsChar) fun _ =>
  pbind
    (palt
      (pbind (pch (· = '$')) fun _ =>
       pbind (pch isAlphaU) fun c0 =>
       pbind (pruns isAlnumU) fun cs =>
       pmap (fun chain => '$' :: c0 :: cs ++ chain)
         (pstar
           (pbind (plit (str "->")) fun _ =>
            pbind (pch isAlphaU) fun d0 =>
            pmap (fun ds => str "->" ++ d0 :: ds) (pruns isAlnumU))))
      (palt
        (pbind (pch (· = '$')) fun _ =>
         pbind (pch isAlphaU) fun c0 =>
         pbind (pruns isAlnumU) fun cs =>
         pbind (pch (· = '(')) fun _ =>
         pbind (pruns (fun c => !(c = ')'))) fun args =>
         pmap (fun _ => '$' :: c0 :: cs ++ '(' :: args ++ [')']) (pch (· = ')')))
        (pruns1 (fun c => !(c = ',')))))
    fun valueExpr =>
  ppure (key, valueExpr)

/-- The inner `compact\s*\(\s*([^)]+)\s*\)` match of
`parseCompactSyntaxVariables`; payload = argument list text. -/
def compactInnerPat : Pat Str :=
  pbind (plit (str "compact")) fun _ =>
  pbind (pruns isWsChar) fun _ =>
  pbind (pch (· = '(')) fun _ =>
  pbind (pruns isWsChar) fun _ =>
  pbind (pruns1 (fun c => !(c = ')'))) fun args =>
  pbind (pruns isWsChar) fun _ =>
  pmap (fun _ => args) (pch (· = ')'))

/-- The base-variable regex `\$([a-zA-Z_][a-zA-Z0-9_]*)`; payload = name
without the dollar. -/
def dollarVarPat : Pat Str :=
  pbind (pch (· = '$')) fun _ =>
  pbind (pch isAlphaU) fun c0 =>
  pmap (fun cs => c0 :: cs) (pruns isAlnumU)

/-- `inferVariableTypeEnhanced`: the basic inference, then (only when it
yields `mixed`) chain analysis and method-call analysis over the full
expression text. -/
def inferVariableTypeEnhanced (env : Env) (code varName fullExpression : Str) : Str :=
  let basicType := inferVariableType env code varName
  if !(basicType = str "mixed") then basicType
  else
    let chainResult : Option Str :=
      if containsSub fullExpression (str "->") then
        let getAll : Option Str :=
          if containsSub fullExpression (str "->get()")
              || containsSub fullExpression (str "->all()") then
            (findFirstGroup classColonPat fullExpression).map
              (fun n => str "Collection<" ++ n ++ str ">")
          else none
        match getAll with
        | some t => some t
        | none =>
          if containsSub fullExpression (str "->first()")
              || containsSub fullExpression (str "->find(") then
            findFirstGroup classColonPat fullExpression
          else none
      else none
    match chainResult with
    | some t => t
    | none =>
      let callResult : Option Str :=
        if containsSub fullExpression (str "(") then
          if containsSub fullExpression (str "collect(") then some (str "Collection")
          else if containsSub fullExpression (str "now()")
              || containsSub fullExpression (str "today()") then some (str "Carbon")
          else none
        else none
      match callResult with
      | some t => t
      | none => basicType

/-- `addCollectionItemTypes` (enhanced path): identical materialization to
the basic path's foreach block. -/
def addCollectionItemTypes (env : Env) (type varName viewName controllerPath : Str) :
    List BladeVarInfo :=
  if startsWithStr type (str "Collection<") && endsWithStr type (str ">") then
    let itemType := (type.drop 11).dropLast
    match convertToBladeFilePath env.root env.cwd viewName with
    | none => []
    | some bladeFilePath =>
      (extractForeachVariables env bladeFilePath varName).map fun foreachVar =>
        { name := foreachVar
          source := varName ++ str " (foreach item)"
          jumpTargetUri := bladeFilePath
          definedInPath := controllerPath
          type := itemType
          properties := inferTypeProperties env itemType }
  else []

/-- `parseArraySyntaxVariables` (enhanced path). -/
def parseArraySyntaxVariables (env : Env)
    (arrayString viewName phpCode controllerPath : Str) : List BladeVarInfo :=
  let cleanArray := (arrayString.drop 1).dropLast
  (scanAll enhancedArrayVarPat cleanArray).flatMap fun r =>
    let keyName := r.2.1.1
    let valueExpression := r.2.1.2
    let varName := '$' :: keyName
    let baseVar := findFirstGroup dollarVarPat valueExpression
    let sourceVar :=
      match baseVar with
      | some b => '$' :: b
      | none => valueExpression
    let inferredType :=
      inferVariableTypeEnhanced env phpCode (baseVar.getD keyName) valueExpression
    { name := varName
      source := sourceVar
      jumpTargetUri := (convertToBladeFilePath env.root env.cwd viewName).getD []
      definedInPath := controllerPath
      type := inferredType
      properties := inferTypeProperties env inferredType }
    :: addCollectionItemTypes env inferredType varName viewName controllerPath

/-- `parseCompactSyntaxVariables` (enhanced path). -/
def parseCompactSyntaxVariables (env : Env)
    (compactString viewName phpCode controllerPath : Str) : List BladeVarInfo :=
  match findFirstGroup compactInnerPat compactString with
  | none => []
  | some args =>
    let variableNames := ((splitOnCh ',' args).map
      (fun v => removeChars isQuoteCh (trimStr v))).filter (fun v => 0 < v.length)
    variableNames.flatMap fun varName =>
      let fullVarName := '$' :: varName
      let inferredType := inferVariableTypeEnhanced env phpCode varName fullVarName
      { name := fullVarName
        source := fullVarName
        jumpTargetUri := (convertToBladeFilePath env.root env.cwd viewName).getD []
        definedInPath := controllerPath
        type := inferredType
        properties := inferTypeProperties env inferredType }
      :: addCollectionItemTypes env inferredType fullVarName viewName controllerPath

/-- `parseVariableOrMethodCall` (enhanced path). -/
def parseVariableOrMethodCall (env : Env)
    (expression viewName phpCode controllerPath : Str) : List BladeVarInfo :=
  match findFirstGroup dollarVarPat expression with
  | none => []
  | some base =>
    let varName := '$' :: base
    let inferredType := inferVariableTypeEnhanced env phpCode base expression
    { name := varName
      source := trimStr expression
      jumpTargetUri := (convertToBladeFilePath env.root env.cwd viewName).getD []
      definedInPath := controllerPath
      type := inferredType
      properties := inferTypeProperties env inferredType }
    :: addCollectionItemTypes env inferredType varName viewName controllerPath

/-- `parseViewCallsUsingEnhancedRegex`: every enhanced view-call match is
dispatched on the shape of its variables part. -/
def parseViewCallsUsingEnhancedRegex (env : Env) (phpCode controllerPath : Str) :
    List BladeVarInfo :=
  (scanAll enhancedCallPat phpCode).flatMap fun r =>
    let viewName := r.2.1.1
    let variablesPart := r.2.1.2
    if startsWithStr (trimStr variablesPart) (str "[") then
      parseArraySyntaxVariables env variablesPart viewName phpCode controllerPath
    else if containsSub variablesPart (str "compact") then
      parseCompactSyntaxVariables env variablesPart viewName phpCode controllerPath
    else
      parseVariableOrMethodCall env variablesPart viewName phpCode controllerPath

/-- `parseViewCallsFromASTOrTokens`: both the AST and the token bridge
outcomes currently defer to the enhanced regex engine. -/
def parseViewCallsFromASTOrTokens (env : Env) (phpCode controllerPath : Str) :
    List BladeVarInfo :=
  parseViewCallsUsingEnhancedRegex env phpCode controllerPath

/-!  ## `php-wasm-templates.ts` and the execution bridge

The embedded interpreter (`phpWasm.run`) and the host's `JSON.parse` are
external to the repository; they are modelled as an abstract `BridgeEnv`:
`run` returns the captured output text (`none` when the call throws or
yields no text), `classifyAst` says whether that text parses as JSON and
whether the parsed value carries an `error` field, `tokenJsonOk` says
whether the token output parses as JSON, and `jsonQuote` is
`JSON.stringify` on the embedded code. -/

/-- Outcome of `JSON.parse` on the AST output. -/
inductive JsonAst where
  | parseFail
  | okWithError
  | okClean
deriving Repr, DecidableEq

/-- Abstract embedded-PHP bridge. -/
structure BridgeEnv where
  run : Str → Option Str
  classifyAst : Str → JsonAst
  tokenJsonOk : Str → Bool
  jsonQuote : Str → Str

/-- `createPHPWrapper`. -/
def createPHPWrapper (phpCode : Str) : Str :=
  str "<?php\n" ++ phpCode ++ str "\n"

/-- `createASTParsingScript` (the JSON encoding of the embedded code is
the bridge's `jsonQuote`). -/
def createASTParsingScript (jq : Str → Str) (phpCode : Str) : Str :=
  str "<?php\n$code = " ++ jq phpCode ++
  str ";\ntry \x7b\n    $ast = ast\\parse_code($code, $version=70);\n    echo json_encode($ast, JSON_PRETTY_PRINT);\n\x7d catch (Exception $e) \x7b\n    echo json_encode(['error' => $e->getMessage()]);\n\x7d"

/-- `createTokenParsingScript` (the fixed PHP token-walking program around
the JSON-encoded embedded code). -/
def createTokenParsingScript (jq : Str → Str) (phpCode : Str) : Str :=
  str "<?php\n$code = " ++ jq phpCode ++
  str ";\n$tokens = token_get_all($code);\n$methods = [];\n$in_function = false;\n$function_name = '';\n$brace_count = 0;\n$looking_for_view = false;\n\nforeach ($tokens as $i => $token) \x7b\n    if (is_array($token)) \x7b\n        $token_name = token_name($token[0]);\n        $token_value = $token[1];\n        \n        // Look for function definitions\n        if ($token_name === 'T_FUNCTION') \x7b\n            $in_function = true;\n        \x7d\n        \n        // Get function name\n        if ($in_function && $token_name === 'T_STRING') \x7b\n            $function_name = $token_value;\n            $in_function = false;\n        \x7d\n        \n        // Look for view() calls\n        if ($token_name === 'T_STRING' && $token_value === 'view') \x7b\n            $looking_for_view = true;\n            $methods[] = [\n                'type' => 'view_call',\n                'function' => $function_name,\n                'position' => $i\n            ];\n        \x7d\n    \x7d\n\x7d\n\necho json_encode($methods, JSON_PRETTY_PRINT);"

/-- `parseWithPhpWasm`: wrap the code, run the AST script; a clean JSON
AST (and likewise a JSON-parseable token fallback) defers to the enhanced
regex engine; every other outcome throws (`none`). -/
def parseWithPhpWasm (env : Env) (benv : BridgeEnv) (phpCode controllerPath : Str) :
    Option (List BladeVarInfo) :=
  let wrappedCode := createPHPWrapper phpCode
  match benv.run (createASTParsingScript benv.jsonQuote wrappedCode) with
  | none => none
  | some text =>
    match benv.classifyAst text with
    | .okClean => some (parseViewCallsFromASTOrTokens env phpCode controllerPath)
    | .okWithError => none
    | .parseFail =>
      match benv.run (createTokenParsingScript benv.jsonQuote wrappedCode) with
      | none => none
      | some tokenText =>
        if benv.tokenJsonOk tokenText then
          some (parseViewCallsFromASTOrTokens env phpCode controllerPath)
        else none

/-- `parseViewVariablesFromController`: read the Controller (an unreadable
file is caught and yields no records), try the bridge when it is ready (a
bridge failure is caught and falls back; an empty bridge result also falls
back), then run the basic regex extraction. -/
def parseViewVariablesFromController (env : Env) (controllerPath : Str)
    (phpWasm : Option BridgeEnv) (phpWasmReady : Bool) : List BladeVarInfo :=
  match env.read controllerPath with
  | none => []
  | some rawCode =>
    let fallback := basicRegexRecords env rawCode controllerPath
    if phpWasmReady then
      match phpWasm with
      | some benv =>
        match parseWithPhpWasm env benv rawCode controllerPath with
        | some results => if 0 < results.length then results else fallback
        | none => fallback
      | none => fallback
    else fallback

/-!  ## `extension.ts`: query-time foreach scoping, completion, rescan

Documents are a `TextDoc`: the template's URI and its lines (the full text
is the lines joined by a newline, as `document.getText()` returns it).
`offsetAtPos` is the host's `offsetAt` (character clamped to the next line
start, lines past the end clamped to the text length). -/

/-- An open text document. -/
structure TextDoc where
  uri : Str
  lines : List Str

/-- Offset of the start of line `l`. -/
def lineStartOffset : List Str → Nat → Nat
  | [], _ => 0
  | _, 0 => 0
  | s :: rest, l + 1 => s.length + 1 + lineStartOffset rest l

/-- The host's `offsetAt`. -/
def offsetAtPos (lines : List Str) (line ch : Nat) : Nat :=
  let text := joinSep '\n' lines
  if lines.length ≤ line then text.length
  else
    let lo := lineStartOffset lines line
    let nextLo :=
      if lines.length ≤ line + 1 then text.length else lineStartOffset lines (line + 1)
    max (min (lo + ch) nextLo) lo

/-- Search for the first match of a recognizer at or after index `i`;
returns `(index, length)`. -/
def patSearchFrom {α : Type} (p : Pat α) (t : Str) (i : Nat) : Option (Nat × Nat) :=
  (scanFrom p ((t.drop i).length + 1) (t.drop i) i).head?.map (fun r => (r.1, r.2.2))

/-- The foreach directive regex of `getForeachVariablesAtPosition`:
`@fore(?:ach|lse)\s*\(\s*\$(\w+)\s+as\s+\$(\w+)\s*\)`; payload =
(collection variable, item variable), both without the dollar. -/
def foreachDirPat : Pat (Str × Str) :=
  pbind (plit (str "@fore")) fun _ =>
  pbind (palt (plit (str "ach")) (plit (str "lse"))) fun _ =>
  pbind (pruns isWsChar) fun _ =>
  pbind (pch (· = '(')) fun _ =>
  pbind (pruns isWsChar) fun _ =>
  pbind (pch (· = '$')) fun _ =>
  pbind (pruns1 isWordChar) fun coll =>
  pbind (pruns1 isWsChar) fun _ =>
  pbind (plit (str "as")) fun _ =>
  pbind (pruns1 isWsChar) fun _ =>
  pbind (pch (· = '$')) fun _ =>
  pbind (pruns1 isWordChar) fun item =>
  pbind (pruns isWsChar) fun _ =>
  pmap (fun _ => (coll, item)) (pch (· = ')'))

/-- `@end(?:foreach|forelse)`. -/
def endDirPat : Pat Unit :=
  pbind (plit (str "@end")) fun _ =>
  palt (plit (str "foreach")) (plit (str "forelse"))

/-- End offset of the foreach block opened by the directive at
`foreachStart` with match length `matchLen`: one past the first
`@endforeach`/`@endforelse` at or after the directive, or the text length
when there is none. -/
def foreachBlockEnd (text : Str) (foreachStart matchLen : Nat) : Nat :=
  match patSearchFrom endDirPat text (foreachStart + matchLen) with
  | some r => r.1 + r.2
  | none => text.length

/-- `getForeachVariablesAtPosition`: for every foreach directive whose
block contains the queried offset, synthesize an item record when the
collection variable resolves in the cache to a `Collection<T>`. -/
def getForeachVariablesAtPosition (env : Env) (cache : List BladeVarInfo)
    (doc : TextDoc) (line ch : Nat) : List BladeVarInfo :=
  let text := joinSep '\n' doc.lines
  let currentOffset := offsetAtPos doc.lines line ch
  (scanAll foreachDirPat text).filterMap fun r =>
    let foreachStart := r.1
    let collectionVar := '$' :: r.2.1.1
    let itemVar := '$' :: r.2.1.2
    let foreachEnd := foreachBlockEnd text foreachStart r.2.2
    if foreachStart ≤ currentOffset && currentOffset ≤ foreachEnd then
      match cache.find? (fun v => v.jumpTargetUri = doc.uri && v.name = collectionVar) with
      | some collectionInfo =>
        if !collectionInfo.type.isEmpty
            && startsWithStr collectionInfo.type (str "Collection<")
            && endsWithStr collectionInfo.type (str ">") then
          let itemType := (collectionInfo.type.drop 11).dropLast
          some
            { name := itemVar
              source := collectionVar ++ str " (foreach item)"
              jumpTargetUri := doc.uri
              definedInPath := collectionInfo.definedInPath
              type := itemType
              properties := inferTypeProperties env itemType }
        else none
      | none => none
    else none

/-- The trigger test `/\$(?!\$)/` on the line text before the cursor:
some `$` not followed by another `$`. -/
def hasDollarNotDollar : Str → Bool
  | [] => false
  | '$' :: rest =>
    match rest with
    | '$' :: r => hasDollarNotDollar ('$' :: r)
    | _ :: _ => true
    | [] => true
  | _ :: rest => hasDollarNotDollar rest

/-- `provideCompletionItems`: when the line text before the cursor
triggers, offer every cached record whose destination is this template
plus the query-time foreach records for the cursor's position (the
`CompletionItem` construction around each record — label without the `$`,
type as detail, Controller link — is presentational). -/
def provideCompletionItems (env : Env) (cache : List BladeVarInfo)
    (doc : TextDoc) (line ch : Nat) : List BladeVarInfo :=
  let lineText := doc.lines.getD line []
  let lpfxText := lineText.take ch
  if !hasDollarNotDollar lpfxText then []
  else
    let varInfos := cache.filter (fun v => v.jumpTargetUri = doc.uri)
    let foreachVars := getForeachVariablesAtPosition env cache doc line ch
    varInfos ++ foreachVars

/-- The successive values of the shared cache `allBladeVarInfos` during one
run of `refreshVariableInformation`, starting from `acc`: the loop appends
each file's records after awaiting its parse. -/
def scanStatesFrom (env : Env) (phpWasm : Option BridgeEnv) (ready : Bool) :
    List Str → List BladeVarInfo → List (List BladeVarInfo)
  | [], _ => []
  | p :: rest, acc =>
    let acc' := acc ++ parseViewVariablesFromController env p phpWasm ready
    acc' :: scanStatesFrom env phpWasm ready rest acc'

/-- Observable values of the shared cache around one
`refreshVariableInformation` run over the discovered Controller files:
the pre-scan value (before the call), the empty list (the function clears
the cache before its first `await`), then the state after each file's
records are appended (each `await parseViewVariablesFromController` is a
suspension point at which hover/completion queries run against the
current value). -/
def refreshTrace (env : Env) (pre : List BladeVarInfo) (controllerFiles : List Str)
    (phpWasm : Option BridgeEnv) (ready : Bool) : List (List BladeVarInfo) :=
  pre :: [] :: scanStatesFrom env phpWasm ready controllerFiles []

/-!  ## `lib/document-fns.ts`: `getWordRangeAtPosition`

The matching pattern argument is a `JsRegex`: its `search` finds the first
match at or after an index, and `isGlobal` says whether the JS regex
carries the `g` flag.  `execJs` is `RegExp.prototype.exec` with its
`lastIndex` statefulness: a global regex searches from `lastIndex` and
advances it; a non-global regex always searches from the start and leaves
`lastIndex` unchanged.  The `while ((match = regex.exec(lineText)))` loop
is fuelled: `none` means the loop has not finished within the given number
of iterations (for every fuel value). -/

/-- A JS regex value, as the utility consumes it. -/
structure JsRegex where
  isGlobal : Bool
  search : Str → Nat → Option (Nat × Nat)

/-- `RegExp.prototype.exec`: result and updated `lastIndex`. -/
def execJs (rgx : JsRegex) (text : Str) (lastIndex : Nat) :
    Option (Nat × Nat) × Nat :=
  if rgx.isGlobal then
    match rgx.search text lastIndex with
    | some (i, len) => (some (i, len), i + len)
    | none => (none, 0)
  else (rgx.search text 0, lastIndex)

/-- The regex-scanning loop of `getWordRangeAtPosition`, fuelled. -/
def wordRangeLoop (rgx : JsRegex) (lineText : Str) (rel : Nat) :
    Nat → Nat → Option (Option (Nat × Nat))
  | _, 0 => none
  | li, fuel + 1 =>
    match execJs rgx lineText li with
    | (none, _) => some none
    | (some (s, len), li') =>
      if s ≤ rel && rel ≤ s + len then some (some (s, s + len))
      else wordRangeLoop rgx lineText rel li' fuel

/-- `getWordRangeAtPosition`: slice out the cursor's line, loop over the
pattern's matches, return the span (as absolute document offsets) of a
match containing the cursor, `some none` when no match does, and `none`
when the loop does not terminate within `fuel` iterations. -/
def getWordRangeAtPosition (doc : TextDoc) (line ch : Nat) (rgx : JsRegex)
    (fuel : Nat) : Option (Option (Nat × Nat)) :=
  let text := joinSep '\n' doc.lines
  let offset := offsetAtPos doc.lines line ch
  let lineStart := offsetAtPos doc.lines line 0
  let lineEnd := offsetAtPos doc.lines (line + 1) 0
  let lineText := subStr text lineStart (lineEnd - lineStart)
  (wordRangeLoop rgx lineText (offset - lineStart) 0 fuel).map
    (fun r => r.map (fun q => (lineStart + q.1, lineStart + q.2)))

/-- The default pattern `/\$[\w]+/` — note: no `g` flag. -/
def dollarWordPat : Pat Unit :=
  pbind (pch (· = '$')) fun _ => pmap (fun _ => ()) (pruns1 isWordChar)

/-- The default pattern as a `JsRegex`. -/
def defaultWordRegex : JsRegex :=
  { isGlobal := false
    search := fun t i => patSearchFrom dollarWordPat t i }

/-!  ## Concrete instances used by the claim theorems -/

/-- Failing input for the enum-scoping claim: a Controller whose only
enum-shaped assignment goes to `$other`, in a workspace where `Status`
resolves as a native enum. -/
def c1code : Str := str "$other = Status::ACTIVE;"

/-- Workspace for the enum-scoping claim: `app/Enums/Status.php` exists
and declares `enum Status`. -/
def envC1 : Env :=
  { root := some (str "r")
    cwd := str "c"
    read := fun p =>
      if p = str "r/app/Enums/Status.php" then some (str "enum Status") else none }

/-- A Model file whose `$casts` entry collides with the baseline `id`
member. -/
def contentC2 : Str := str "protected $casts = ['id' => 'datetime'];"

/-- Workspace holding that Model file at `app/Models/Post.php`. -/
def envC2 : Env :=
  { root := some (str "r")
    cwd := str "c"
    read := fun p =>
      if p = str "r/app/Models/Post.php" then some contentC2 else none }

/-- Controller text for the foreach-scoping scenario: `$posts` is inferred
as `Collection<Post>` and passed to view `s`. -/
def ctlC3 : Str :=
  str "$posts = Post::query()->get(); return view('s', ['posts' => $posts]);"

/-- Destination template: a foreach block over `$posts`, then a line
outside the block where a `$` is being typed. -/
def tplLinesC3 : List Str :=
  [str "@foreach ($posts as $post)", str "@endforeach", str "$"]

/-- Workspace with the Controller and the destination template. -/
def envC3 : Env :=
  { root := some (str "r")
    cwd := str "c"
    read := fun p =>
      if p = str "/ctl.php" then some ctlC3
      else if p = str "r/resources/views/s.blade.php" then some (joinSep '\n' tplLinesC3)
      else none }

/-- The scan-time cache produced by the real extraction pipeline for that
Controller (it contains both `$posts` and the materialized `$post`). -/
def cacheC3 : List BladeVarInfo :=
  parseViewVariablesFromController envC3 (str "/ctl.php") none false

/-- The destination template as an open document. -/
def docC3 : TextDoc :=
  { uri := str "file://r/resources/views/s.blade.php", lines := tplLinesC3 }

/-- The materialized foreach record for `$post`, as the query-time source
produces it at a position inside the block. -/
def postItemInfo : BladeVarInfo :=
  { name := str "$post"
    source := str "$posts (foreach item)"
    jumpTargetUri := docC3.uri
    definedInPath := str "/ctl.php"
    type := str "Post"
    properties := inferTypeProperties envC3 (str "Post") }

/-- A Controller contributing a single record, for the rescan trace. -/
def ctlSmall : Str := str "return view('s', ['a' => $a]);"

/-- Workspace for the rescan trace: two one-record Controllers. -/
def envC4 : Env :=
  { root := some (str "r")
    cwd := str "c"
    read := fun p =>
      if p = str "/c1.php" then some ctlSmall
      else if p = str "/c2.php" then some ctlSmall
      else if p = str "/ctl.php" then some ctlC3
      else if p = str "r/resources/views/s.blade.php" then some (joinSep '\n' tplLinesC3)
      else none }

/-- The Controller files of the rescan. -/
def pathsC4 : List Str := [str "/c1.php", str "/c2.php"]

/-- The pre-scan cache (two records, built by the real pipeline). -/
def preC4 : List BladeVarInfo :=
  parseViewVariablesFromController envC4 (str "/ctl.php") none false

/-- Failing input for the word-range claim: a line whose first (and only)
`$`-identifier ends before the cursor. -/
def docC5 : TextDoc := { uri := str "u", lines := [str "$foo bar"] }

/-- Controller text for the precedence claim. -/
def c6code : Str := str "$posts = Post::query()->where('x',1)->get();"

/-- A realistic Controller containing the precedence claim's assignment
among class scaffolding and a view call. -/
def c6codeWrapped : Str :=
  str "<?php\nclass PostController extends Controller \x7b\n    public function index() \x7b\n        $posts = Post::query()->where('x',1)->get();\n        return view('posts.index', ['posts' => $posts]);\n    \x7d\n\x7d\n"

/-- An environment whose filesystem is empty (used by witnesses). -/
def envEmpty : Env := { root := some (str "r"), cwd := str "c", read := fun _ => none }

/-- A bridge whose every call throws. -/
def benvFail : BridgeEnv :=
  { run := fun _ => none
    classifyAst := fun _ => JsonAst.parseFail
    tokenJsonOk := fun _ => false
    jsonQuote := fun s => s }

/-- A bridge whose AST call succeeds with clean JSON. -/
def benvOk : BridgeEnv :=
  { run := fun _ => some (str "x")
    classifyAst := fun _ => JsonAst.okClean
    tokenJsonOk := fun _ => true
    jsonQuote := fun s => s }

/-!  ## Helper lemmas -/

set_option maxRecDepth 200000
set_option maxHeartbeats 4000000

/-- Mapping dots to slashes fixes a dot-free string. -/
theorem mapDot_id (s : Str) (h : '.' ∉ s) :
    s.map (fun c => if c = '.' then '/' else c) = s := by
  induction s with
  | nil => rfl
  | cons c r ih =>
    simp only [List.mem_cons, not_or] at h
    have hc : ¬(c = '.') := fun hh => h.1 hh.symm
    simp [List.map_cons, hc, ih h.2]

/-- Mapping dots to slashes turns a dot-joined list of dot-free segments
into the slash-joined list. -/
theorem mapDot_join (segs : List Str) (h : ∀ s ∈ segs, '.' ∉ s) :
    (joinSep '.' segs).map (fun c => if c = '.' then '/' else c) =
      joinSep '/' segs := by
  induction segs with
  | nil => rfl
  | cons s rest ih =>
    cases rest with
    | nil => simpa [joinSep] using mapDot_id s (h s (by simp))
    | cons t ts =>
      have hs : '.' ∉ s := h s (by simp)
      have hrest : ∀ u ∈ t :: ts, '.' ∉ u := fun u hu => h u (by simp [hu])
      simp [joinSep, List.map_append, mapDot_id s hs, ih hrest]

/-- A separator-joined list of nonempty segments is nonempty. -/
theorem joinSep_ne_nil (c : Char) (segs : List Str) (h0 : segs ≠ [])
    (h1 : ∀ s ∈ segs, s ≠ []) : joinSep c segs ≠ [] := by
  cases segs with
  | nil => exact absurd rfl h0
  | cons s rest =>
    have hs : s ≠ [] := h1 s (by simp)
    cases rest with
    | nil => simpa [joinSep] using hs
    | cons t ts =>
      simp only [joinSep]
      intro hcontra
      exact hs (List.append_eq_nil.mp hcontra).1

/-- Reading back the key just assigned. -/
theorem getProp_setProp_same (ps : Props) (k v : Str) :
    getProp (setProp ps k v) k = some v := by
  induction ps with
  | nil => simp [setProp, getProp, List.find?]
  | cons kv rest ih =>
    by_cases hk : kv.1 = k
    · simp [setProp, hk, getProp, List.find?]
    · simp only [setProp]
      rw [if_neg hk]
      simpa [getProp, List.find?, hk] using ih

/-- Assigning a different key leaves a lookup unchanged. -/
theorem getProp_setProp_ne (ps : Props) (k' v k : Str) (h : k' ≠ k) :
    getProp (setProp ps k' v) k = getProp ps k := by
  induction ps with
  | nil => simp [setProp, getProp, List.find?, h]
  | cons kv rest ih =>
    by_cases hk : kv.1 = k'
    · simp [setProp, hk, getProp, List.find?, h]
    · simp only [setProp]
      rw [if_neg hk]
      by_cases hkk : kv.1 = k
      · simp [getProp, List.find?, hkk]
      · simpa [getProp, List.find?, hkk] using ih

/-- Peeling one assignment off `setProps`. -/
theorem setProps_cons (ps : Props) (kv : Str × Str) (l : List (Str × Str)) :
    setProps ps (kv :: l) = setProps (setProp ps kv.1 kv.2) l := rfl

/-- Assigning only other keys leaves a lookup unchanged. -/
theorem getProp_setProps_ne (adds : List (Str × Str)) (ps : Props) (k : Str)
    (h : ∀ p ∈ adds, p.1 ≠ k) :
    getProp (setProps ps adds) k = getProp ps k := by
  induction adds generalizing ps with
  | nil => rfl
  | cons kv l ih =>
    rw [setProps_cons, ih _ (fun p hp => h p (by simp [hp])),
      getProp_setProp_ne _ _ _ _ (h kv (by simp))]

/-!  ## Claim theorems -/

/-- C1.  Enum type inference is *not* scoped to the queried variable: the
`.replace(/\\(\\w\\+\\)/, varName)` that should interpolate the variable
name into the pattern source never matches (the pattern requires two
consecutive backslashes), so the compiled pattern matches an enum-shaped
assignment to *any* variable.  At the failing input — a Controller whose
only enum-shaped assignment is `$other = Status::ACTIVE;` and no
occurrence of `$foo` at all — querying variable `foo` is typed as the
enum `Status`, where the claim (and the evident intent of the `.replace`
call) requires no enum type. -/
theorem c1_enum_inference_not_scoped :
    inferEnumType envC1 c1code (str "foo") = some (str "Status") ∧
    inferVariableType envC1 c1code (str "foo") = str "Status" ∧
    containsSub c1code (str "$foo") = false ∧
    replaceFirstHitBy brokenScopePat php81EnumSrc (str "foo") = php81EnumSrc :=
  ⟨rfl, rfl, rfl, rfl⟩

/-- C6.  Type-inference precedence: on the Controller text of the claim's
assignment `$posts = Post::query()->where('x',1)->get();` — both alone and
embedded in a realistic Controller class with a view call — the variable
`posts` is inferred as `Collection<Post>` and not `Post` (the query-builder
rule fires before the single-model rules), for every filesystem
environment: the enum patterns match neither text, so no filesystem lookup
happens. -/
theorem c6_query_get_precedence (env : Env) :
    (inferVariableType env c6code (str "posts") = str "Collection<Post>" ∧
      ¬ inferVariableType env c6code (str "posts") = str "Post") ∧
    (inferVariableType env c6codeWrapped (str "posts") = str "Collection<Post>" ∧
      ¬ inferVariableType env c6codeWrapped (str "posts") = str "Post") := by
  have h1 : inferVariableType env c6code (str "posts") = str "Collection<Post>" := rfl
  have h2 : inferVariableType env c6codeWrapped (str "posts") =
      str "Collection<Post>" := rfl
  exact ⟨⟨h1, fun h => absurd (h1.symm.trans h) (by decide)⟩,
    ⟨h2, fun h => absurd (h2.symm.trans h) (by decide)⟩⟩

/-- C8.  Per-file error containment: a Controller file that cannot be
read (the `readFileSync` throw is caught by the surrounding `try`)
contributes zero records, for every bridge state. -/
theorem c8_unreadable_controller_yields_nothing (env : Env) (path : Str)
    (bridge : Option BridgeEnv) (ready : Bool) (h : env.read path = none) :
    parseViewVariablesFromController env path bridge ready = [] := by
  unfold parseViewVariablesFromController
  rw [h]

/-- Witness for C8 at a concrete unreadable file. -/
theorem c8_witness :
    parseViewVariablesFromController envEmpty (str "/missing.php") none false = [] :=
  c8_unreadable_controller_yields_nothing envEmpty (str "/missing.php") none false rfl

/-- C9.  Bridge degrade transparency: with the bridge not ready, or
absent, or throwing on the file's code, the extraction output equals the
output with the bridge arguments omitted entirely (omitted arguments are
`undefined`, which fail the `phpWasmReady && phpWasm` guard, i.e. the
`none`/`false` instance). -/
theorem c9_bridge_degrade (env : Env) (path : Str) (bridge : Option BridgeEnv)
    (ready : Bool)
    (h : ready = false ∨ bridge = none ∨
      (∀ b raw, bridge = some b → env.read path = some raw →
        parseWithPhpWasm env b raw path = none)) :
    parseViewVariablesFromController env path bridge ready =
      parseViewVariablesFromController env path none false := by
  cases hr : env.read path with
  | none => simp [parseViewVariablesFromController, hr]
  | some raw =>
    rcases h with h | h | h
    · subst h; simp [parseViewVariablesFromController, hr]
    · subst h; cases ready <;> simp [parseViewVariablesFromController, hr]
    · cases bridge with
      | none => cases ready <;> simp [parseViewVariablesFromController, hr]
      | some b =>
        cases ready with
        | false => simp [parseViewVariablesFromController, hr]
        | true => simp [parseViewVariablesFromController, hr, h b raw rfl hr]

/-- Witness for C9: a throwing bridge marked ready produces the same
records as no bridge at all, on a real Controller. -/
theorem c9_witness :
    parseViewVariablesFromController envC3 (str "/ctl.php") (some benvFail) true =
      parseViewVariablesFromController envC3 (str "/ctl.php") none false :=
  c9_bridge_degrade envC3 (str "/ctl.php") (some benvFail) true
    (Or.inr (Or.inr (fun b raw hb _ => by cases hb; rfl)))

/-- On the line `$foo bar` with the cursor at character 6, the scanning
loop of `getWordRangeAtPosition` never returns, whatever the fuel: the
default pattern has no `g` flag, so `exec` yields the same first match
`(0,4)` on every iteration, the containment test fails, and the state
never changes. -/
theorem c5_loop_stuck (fuel li : Nat) :
    wordRangeLoop defaultWordRegex (str "$foo bar") 6 li fuel = none := by
  induction fuel generalizing li with
  | zero => rfl
  | succ n ih =>
    have hexec : execJs defaultWordRegex (str "$foo bar") li = (some (0, 4), li) := rfl
    simp [wordRangeLoop, hexec, ih]

/-- Unfolding `getWordRangeAtPosition` at the failing document and cursor:
the line slice is `$foo bar` and the cursor's line-relative offset is 6. -/
theorem c5_unfolded (fuel : Nat) :
    getWordRangeAtPosition docC5 0 6 defaultWordRegex fuel =
      (wordRangeLoop defaultWordRegex (str "$foo bar") 6 0 fuel).map
        (fun r : Option (Nat × Nat) => r.map (fun q => (0 + q.1, 0 + q.2))) := rfl

/-- C5.  `getWordRangeAtPosition` is not total: with the default pattern
`/\$[\w]+/` (no `g` flag) and a cursor on the failing line past the only
match, the `while (regex.exec(...))` loop re-reads the same match forever —
for every fuel bound the fuelled embedding reports non-termination. -/
theorem c5_word_range_loops_forever (fuel : Nat) :
    getWordRangeAtPosition docC5 0 6 defaultWordRegex fuel = none := by
  rw [c5_unfolded fuel, c5_loop_stuck fuel 0]
  rfl

/-- C7.  Template path derivation: for every workspace root and every
nonempty dot-notation name (nonempty, dot-free segments), the derived
location is `file://{root}/resources/views/` followed by the segments
joined by `/` and suffixed `.blade.php`. -/
theorem c7_template_path (root cwd : Str) (segs : List Str) (h0 : segs ≠ [])
    (h1 : ∀ s ∈ segs, s ≠ [] ∧ '.' ∉ s) :
    convertToBladeFilePath (some root) cwd (joinSep '.' segs) =
      some (str "file://" ++ root ++ str "/resources/views/" ++
        joinSep '/' segs ++ str ".blade.php") := by
  have hne : joinSep '.' segs ≠ [] :=
    joinSep_ne_nil '.' segs h0 (fun s hs => (h1 s hs).1)
  have hmap := mapDot_join segs (fun s hs => (h1 s hs).2)
  simp [convertToBladeFilePath, List.isEmpty_eq_false.mpr hne, hmap]

/-- Witness for C7: the spec's own example `user.profile`. -/
theorem c7_witness :
    convertToBladeFilePath (some (str "w")) (str "c")
        (joinSep '.' [str "user", str "profile"]) =
      some (str "file://" ++ str "w" ++ str "/resources/views/" ++
        joinSep '/' [str "user", str "profile"] ++ str ".blade.php") :=
  c7_template_path (str "w") (str "c") [str "user", str "profile"]
    (by decide) (by decide)

/-- Looking up a key of a key-distinct assignment list after `setProps`
yields that pair's value. -/
theorem getProp_setProps_eq (adds : List (Str × Str)) :
    ∀ (ps : Props) (k v : Str), (k, v) ∈ adds →
      (adds.map Prod.fst).Nodup →
      getProp (setProps ps adds) k = some v := by
  induction adds with
  | nil => intro ps k v h _; simp at h
  | cons kv l ih =>
    intro ps k v h hnd
    rw [List.map_cons, List.nodup_cons] at hnd
    rw [setProps_cons]
    rcases List.mem_cons.mp h with heq | hmem
    · have hk : kv.1 = k := by rw [← heq]
      have hv : kv.2 = v := by rw [← heq]
      have hnotin : k ∉ l.map Prod.fst := hk ▸ hnd.1
      rw [getProp_setProps_ne l _ k (fun p hp hpk =>
        hnotin (hpk ▸ List.mem_map_of_mem Prod.fst hp))]
      rw [hk, hv, getProp_setProp_same]
    · exact ih _ k v hmem hnd.2

/-- C2 counterexample: the Model file `contentC2` is found, its `$casts`
parse yields `id → Carbon`, yet the returned map holds the baseline
`id → int` — the baseline spread *does* override the parsed field, against
the claim. -/
theorem c2_counterexample_baseline_overrides :
    findModelContent envC2 (str "Post") = some contentC2 ∧
    getProp (modelParsedProps envC2 contentC2) (str "id") = some (str "Carbon") ∧
    getProp (parseModelProperties envC2 (str "Post")) (str "id") = some (str "int") :=
  ⟨rfl, rfl, rfl⟩

/-- C2 amended.  The fixed baseline is merged in last and *overrides*
collisions: for every Model whose file is found (with nonempty content),
the returned map sends every baseline name to the baseline type — shown
here for the colliding `id → int` and for `created_at → Carbon` —
regardless of what `$fillable`/`$casts`/`$dates`/PHPDoc/relations
extracted. -/
theorem c2_amended_baseline_wins (env : Env) (name content : Str)
    (h : findModelContent env name = some content) (h2 : content ≠ []) :
    getProp (parseModelProperties env name) (str "id") = some (str "int") ∧
    getProp (parseModelProperties env name) (str "created_at") = some (str "Carbon") := by
  have hfalse : content.isEmpty = false := by
    cases content with
    | nil => exact absurd rfl h2
    | cons a b => rfl
  have hred : parseModelProperties env name =
      mergeSpread (modelParsedProps env content) (modelBaseProps name) := by
    simp [parseModelProperties, h, hfalse]
  rw [hred, mergeSpread]
  have hkeys : (modelBaseProps name).map Prod.fst =
      [str "id", str "created_at", str "updated_at", str "save", str "delete",
       str "update", str "fresh", str "refresh", str "toArray", str "toJson",
       str "getAttribute", str "setAttribute", str "fill", str "isDirty",
       str "isClean", str "wasRecentlyCreated", str "exists", str "load",
       str "loadMissing", str "with"] := rfl
  have hnd : ((modelBaseProps name).map Prod.fst).Nodup := by
    rw [hkeys]; decide
  constructor
  · exact getProp_setProps_eq _ _ _ _ (by simp [modelBaseProps]) hnd
  · exact getProp_setProps_eq _ _ _ _ (by simp [modelBaseProps]) hnd

/-- Witness for C2's amended claim at the concrete colliding Model. -/
theorem c2_amended_witness :
    getProp (parseModelProperties envC2 (str "Post")) (str "id") = some (str "int") ∧
    getProp (parseModelProperties envC2 (str "Post")) (str "created_at") =
      some (str "Carbon") :=
  c2_amended_baseline_wins envC2 (str "Post") contentC2 rfl (by decide)

/-- Intermediate cache states during the scan loop: after the `(n+1)`-st
file, the cache holds the records of the first `n+1` files appended to the
starting value. -/
theorem scanStates_mem (env : Env) (bridge : Option BridgeEnv) (ready : Bool) :
    ∀ (paths : List Str) (acc : List BladeVarInfo) (n : Nat), n + 1 ≤ paths.length →
      (acc ++ (paths.take (n + 1)).flatMap
          (fun p => parseViewVariablesFromController env p bridge ready)) ∈
        scanStatesFrom env bridge ready paths acc := by
  intro paths
  induction paths with
  | nil => intro acc n h; simp at h
  | cons p rest ih =>
    intro acc n h
    cases n with
    | zero => simp [scanStatesFrom]
    | succ m =>
      have hm : m + 1 ≤ rest.length := by simpa using h
      have hmem := ih (acc ++ parseViewVariablesFromController env p bridge ready) m hm
      simp only [scanStatesFrom, List.mem_cons]
      right
      simpa [List.append_assoc] using hmem

/-- C4 counterexample: with a pre-scan cache of two records and two
Controller files of one record each, the observable trace of the shared
cache contains a list of length 1 — strictly between 0 and the pre-scan
count — because the rescan clears the cache up front and grows it
file-by-file across its `await` suspension points. -/
theorem c4_counterexample_partial_cache :
    ∃ s ∈ refreshTrace envC4 preC4 pathsC4 none false,
      0 < s.length ∧ s.length < preC4.length := by
  have h1 : (refreshTrace envC4 preC4 pathsC4 none false).map List.length =
      [2, 0, 1, 2] := rfl
  have h2 : (1 : Nat) ∈ (refreshTrace envC4 preC4 pathsC4 none false).map List.length := by
    rw [h1]; simp
  obtain ⟨s, hs, hlen⟩ := List.mem_map.mp h2
  have hpre : preC4.length = 2 := rfl
  exact ⟨s, hs, by omega⟩

/-- C4 amended.  During a rescan a reader observes the cleared cache and
every per-file partial accumulation: for every number `n` of files already
processed, the concatenation of the first `n` files' records is an
observable cache value. -/
theorem c4_amended_partial_states (env : Env) (pre : List BladeVarInfo)
    (paths : List Str) (bridge : Option BridgeEnv) (ready : Bool) (n : Nat)
    (h : n ≤ paths.length) :
    ((paths.take n).flatMap (fun p => parseViewVariablesFromController env p bridge ready)) ∈
      refreshTrace env pre paths bridge ready := by
  cases n with
  | zero => simp [refreshTrace]
  | succ m =>
    simp only [refreshTrace, List.mem_cons]
    right; right
    simpa using scanStates_mem env bridge ready paths [] m h

/-- Witness for C4's amended claim: the state after the first of the two
files is observable. -/
theorem c4_amended_witness :
    ((pathsC4.take 1).flatMap
        (fun p => parseViewVariablesFromController envC4 p none false)) ∈
      refreshTrace envC4 preC4 pathsC4 none false :=
  c4_amended_partial_states envC4 preC4 pathsC4 none false 1 (by decide)

/-- Membership through sequential composition. -/
theorem mem_pbind {α β : Type} (p : Pat α) (f : α → Pat β) (s : Str) (x : β × Str) :
    x ∈ pbind p f s ↔ ∃ r ∈ p s, x ∈ f r.1 r.2 := by
  simp [pbind, List.mem_flatMap]

/-- Membership through mapping. -/
theorem mem_pmap {α β : Type} (g : α → β) (p : Pat α) (s : Str) (x : β × Str) :
    x ∈ pmap g p s ↔ ∃ r ∈ p s, x = (g r.1, r.2) := by
  simp only [pmap, List.mem_map]
  constructor
  · rintro ⟨r, hr, rfl⟩; exact ⟨r, hr, rfl⟩
  · rintro ⟨r, hr, rfl⟩; exact ⟨r, hr, rfl⟩

/-- A greedy-plus outcome is never the empty run. -/
theorem mem_pruns1_ne {f : Char → Bool} {s : Str} {x : Str × Str}
    (h : x ∈ pruns1 f s) : x.1 ≠ [] := by
  simp only [pruns1, List.mem_map, List.mem_range] at h
  obtain ⟨k, hk, heq⟩ := h
  have hx : x.1 = (takeRun f s).1.take ((takeRun f s).1.length - k) := by
    rw [← heq]
  rw [hx, Ne, List.take_eq_nil_iff]
  push_neg
  constructor
  · omega
  · intro hnil
    rw [hnil] at hk
    simp at hk

/-- The JS match an emitted scan entry is built from belongs to the
recognizer's outcomes on some suffix of the input. -/
theorem firstHit_mem {α : Type} (p : Pat α) (s : Str) (a : α) (len : Nat)
    (h : firstHit p s = some (a, len)) : ∃ rest, (a, rest) ∈ p s := by
  unfold firstHit at h
  cases hps : p s with
  | nil => rw [hps] at h; cases h
  | cons r t =>
    rw [hps] at h
    have ha : r.1 = a := by
      have := congrArg (fun o => Option.map Prod.fst o) h
      simpa using this
    rw [← ha]
    exact ⟨r.2, List.mem_cons_self r t⟩

/-- Every payload emitted by the scanning loop is a recognizer outcome on
some input. -/
theorem scanFrom_payload {α : Type} (p : Pat α) :
    ∀ (fuel : Nat) (s : Str) (i0 : Nat) (x : Nat × α × Nat),
      x ∈ scanFrom p fuel s i0 → ∃ t rest, (x.2.1, rest) ∈ p t := by
  intro fuel
  induction fuel with
  | zero => intro s i0 x h; simp [scanFrom] at h
  | succ n ih =>
    intro s i0 x h
    cases s with
    | nil => simp [scanFrom] at h
    | cons c rest =>
      cases hfh : firstHit p (c :: rest) with
      | none =>
        rw [scanFrom, hfh] at h
        exact ih rest (i0 + 1) x h
      | some al =>
        obtain ⟨a, len⟩ := al
        rw [scanFrom, hfh] at h
        rcases List.mem_cons.mp h with heq | hmem
        · obtain ⟨restw, hw⟩ := firstHit_mem p (c :: rest) a len hfh
          exact ⟨c :: rest, restw, by rw [heq]; exact hw⟩
        · exact ih _ _ x hmem

/-- The view-name group of the enhanced view-call pattern is nonempty
(it is a `[^'"]+` capture). -/
theorem enhancedCall_viewName_ne (s : Str) (x : (Str × Str) × Str)
    (h : x ∈ enhancedCallPat s) : x.1.1 ≠ [] := by
  simp only [enhancedCallPat, mem_pbind, mem_pmap] at h
  obtain ⟨r1, h1, r2, h2, r3, h3, r4, h4, r5, h5, r6, h6, r7, h7, r8, h8, r9, h9,
    r10, h10, r11, h11, r12, h12, r13, h13, hx⟩ := h
  have : x.1.1 = r6.1 := by rw [hx]
  rw [this]
  exact mem_pruns1_ne h6

/-- A resolved template location is never the empty string. -/
theorem convertToBladeFilePath_some_ne (root : Option Str) (cwd v u : Str)
    (h : convertToBladeFilePath root cwd v = some u) : u ≠ [] := by
  unfold convertToBladeFilePath at h
  split at h
  · cases h
  · have : (str "file://").length ≤ u.length := by
      have := congrArg List.length (Option.some.inj h)
      simp [List.length_append] at this
      omega
    intro hnil
    rw [hnil] at this
    simp [str] at this

/-- A nonempty view name always resolves, to a nonempty location. -/
theorem convertToBladeFilePath_getD_ne (root : Option Str) (cwd v : Str)
    (h : v ≠ []) : (convertToBladeFilePath root cwd v).getD [] ≠ [] := by
  cases hc : convertToBladeFilePath root cwd v with
  | none =>
    unfold convertToBladeFilePath at hc
    rw [if_neg (by simp [List.isEmpty_eq_false.mpr h])] at hc
    cases hc
  | some u => simpa using convertToBladeFilePath_some_ne root cwd v u hc

/-- Every foreach-materialized record of the enhanced path carries the
resolved (nonempty) template location. -/
theorem mem_addCollectionItemTypes_uri (env : Env) (t v w path : Str)
    (info : BladeVarInfo) (h : info ∈ addCollectionItemTypes env t v w path) :
    info.jumpTargetUri ≠ [] := by
  unfold addCollectionItemTypes at h
  split at h
  · cases hc : convertToBladeFilePath env.root env.cwd w with
    | none => rw [hc] at h; cases h
    | some bfp =>
      rw [hc] at h
      obtain ⟨fv, _, heq⟩ := List.mem_map.mp h
      have : info.jumpTargetUri = bfp := by rw [← heq]
      rw [this]
      exact convertToBladeFilePath_some_ne env.root env.cwd w bfp hc
  · cases h

/-- Same statement for the basic path's (textually duplicated) foreach
block. -/
theorem mem_collectionItemRecords_uri (env : Env) (t v w path : Str)
    (info : BladeVarInfo) (h : info ∈ collectionItemRecords env t v w path) :
    info.jumpTargetUri ≠ [] := by
  unfold collectionItemRecords at h
  split at h
  · cases hc : convertToBladeFilePath env.root env.cwd w with
    | none => rw [hc] at h; cases h
    | some bfp =>
      rw [hc] at h
      obtain ⟨fv, _, heq⟩ := List.mem_map.mp h
      have : info.jumpTargetUri = bfp := by rw [← heq]
      rw [this]
      exact convertToBladeFilePath_some_ne env.root env.cwd w bfp hc
  · cases h

/-- Array-syntax records of the enhanced path have nonempty locations when
the view name is nonempty. -/
theorem mem_parseArraySyntaxVariables_uri (env : Env) (arr w code path : Str)
    (hw : w ≠ []) (info : BladeVarInfo)
    (h : info ∈ parseArraySyntaxVariables env arr w code path) :
    info.jumpTargetUri ≠ [] := by
  unfold parseArraySyntaxVariables at h
  rw [List.mem_flatMap] at h
  obtain ⟨r, _, hin⟩ := h
  rcases List.mem_cons.mp hin with heq | hmem
  · rw [heq]
    exact convertToBladeFilePath_getD_ne env.root env.cwd w hw
  · exact mem_addCollectionItemTypes_uri env _ _ w path info hmem

/-- Compact-syntax records of the enhanced path have nonempty locations
when the view name is nonempty. -/
theorem mem_parseCompactSyntaxVariables_uri (env : Env) (comp w code path : Str)
    (hw : w ≠ []) (info : BladeVarInfo)
    (h : info ∈ parseCompactSyntaxVariables env comp w code path) :
    info.jumpTargetUri ≠ [] := by
  unfold parseCompactSyntaxVariables at h
  cases hg : findFirstGroup compactInnerPat comp with
  | none => rw [hg] at h; cases h
  | some args =>
    rw [hg] at h
    rw [List.mem_flatMap] at h
    obtain ⟨vn, _, hin⟩ := h
    rcases List.mem_cons.mp hin with heq | hmem
    · rw [heq]
      exact convertToBladeFilePath_getD_ne env.root env.cwd w hw
    · exact mem_addCollectionItemTypes_uri env _ _ w path info hmem

/-- Bare-expression records of the enhanced path have nonempty locations
when the view name is nonempty. -/
theorem mem_parseVariableOrMethodCall_uri (env : Env) (expr w code path : Str)
    (hw : w ≠ []) (info : BladeVarInfo)
    (h : info ∈ parseVariableOrMethodCall env expr w code path) :
    info.jumpTargetUri ≠ [] := by
  unfold parseVariableOrMethodCall at h
  cases hg : findFirstGroup dollarVarPat expr with
  | none => rw [hg] at h; cases h
  | some base =>
    rw [hg] at h
    rcases List.mem_cons.mp h with heq | hmem
    · rw [heq]
      exact convertToBladeFilePath_getD_ne env.root env.cwd w hw
    · exact mem_addCollectionItemTypes_uri env _ _ w path info hmem

/-- Every record of the enhanced extraction path has a nonempty
`jumpTargetUri`. -/
theorem mem_enhanced_uri (env : Env) (code path : Str) (info : BladeVarInfo)
    (h : info ∈ parseViewCallsUsingEnhancedRegex env code path) :
    info.jumpTargetUri ≠ [] := by
  unfold parseViewCallsUsingEnhancedRegex at h
  rw [List.mem_flatMap] at h
  obtain ⟨r, hr, hin⟩ := h
  have hvn : r.2.1.1 ≠ [] := by
    obtain ⟨t, rest, hmem⟩ :=
      scanFrom_payload enhancedCallPat (code.length + 1) code 0 r hr
    exact enhancedCall_viewName_ne t _ hmem
  have hin2 : info ∈
      (if startsWithStr (trimStr r.2.1.2) (str "[") then
        parseArraySyntaxVariables env r.2.1.2 r.2.1.1 code path
      else if containsSub r.2.1.2 (str "compact") then
        parseCompactSyntaxVariables env r.2.1.2 r.2.1.1 code path
      else parseVariableOrMethodCall env r.2.1.2 r.2.1.1 code path) := hin
  split at hin2
  · exact mem_parseArraySyntaxVariables_uri env _ _ code path hvn info hin2
  · split at hin2
    · exact mem_parseCompactSyntaxVariables_uri env _ _ code path hvn info hin2
    · exact mem_parseVariableOrMethodCall_uri env _ _ code path hvn info hin2

/-- A successful bridge parse returns exactly the enhanced regex engine's
records. -/
theorem parseWithPhpWasm_some (env : Env) (b : BridgeEnv) (code path : Str)
    (l : List BladeVarInfo) (h : parseWithPhpWasm env b code path = some l) :
    l = parseViewCallsUsingEnhancedRegex env code path := by
  have h2 : (match b.run (createASTParsingScript b.jsonQuote (createPHPWrapper code)) with
      | none => none
      | some text =>
        match b.classifyAst text with
        | JsonAst.okClean => some (parseViewCallsUsingEnhancedRegex env code path)
        | JsonAst.okWithError => none
        | JsonAst.parseFail =>
          match b.run (createTokenParsingScript b.jsonQuote (createPHPWrapper code)) with
          | none => none
          | some tokenText =>
            if b.tokenJsonOk tokenText then
              some (parseViewCallsUsingEnhancedRegex env code path)
            else none) = some l := h
  split at h2
  · cases h2
  · split at h2
    · exact (Option.some.inj h2).symm
    · cases h2
    · split at h2
      · cases h2
      · split at h2
        · exact (Option.some.inj h2).symm
        · cases h2

/-- Every record of the basic extraction path has a nonempty
`jumpTargetUri` (the final truthiness filter discards the rest). -/
theorem mem_basic_uri (env : Env) (raw path : Str) (info : BladeVarInfo)
    (h : info ∈ basicRegexRecords env raw path) : info.jumpTargetUri ≠ [] := by
  unfold basicRegexRecords at h
  have := (List.mem_filter.mp h).2
  simpa [List.isEmpty_eq_false] using this

/-- C10.  Non-empty destination invariant: every record the extraction
engine returns — through the basic regex path or through the bridge-backed
enhanced path — has a nonempty `jumpTargetUri`. -/
theorem c10_jump_target_nonempty (env : Env) (path : Str)
    (bridge : Option BridgeEnv) (ready : Bool) (info : BladeVarInfo)
    (h : info ∈ parseViewVariablesFromController env path bridge ready) :
    info.jumpTargetUri ≠ [] := by
  unfold parseViewVariablesFromController at h
  cases hr : env.read path with
  | none => rw [hr] at h; cases h
  | some raw =>
    rw [hr] at h
    cases ready with
    | false => exact mem_basic_uri env raw path info h
    | true =>
      cases bridge with
      | none => exact mem_basic_uri env raw path info h
      | some b =>
        have h2 : info ∈
            (match parseWithPhpWasm env b raw path with
            | some results =>
              if 0 < results.length then results else basicRegexRecords env raw path
            | none => basicRegexRecords env raw path) := h
        cases hw : parseWithPhpWasm env b raw path with
        | none =>
          rw [hw] at h2
          exact mem_basic_uri env raw path info h2
        | some results =>
          rw [hw] at h2
          have h3 : info ∈
              (if 0 < results.length then results
              else basicRegexRecords env raw path) := h2
          by_cases hlen : 0 < results.length
          · rw [if_pos hlen] at h3
            rw [parseWithPhpWasm_some env b raw path results hw] at h3
            exact mem_enhanced_uri env raw path info h3
          · rw [if_neg hlen] at h3
            exact mem_basic_uri env raw path info h3

/-- Witness for C10: the materialized `$post` record produced by the real
pipeline has a nonempty destination. -/
theorem c10_witness :
    postItemInfo ∈ parseViewVariablesFromController envC3 (str "/ctl.php") none false ∧
    postItemInfo.jumpTargetUri ≠ [] :=
  ⟨by decide, c10_jump_target_nonempty envC3 (str "/ctl.php") none false postItemInfo
    (by decide)⟩

/-- C3 counterexample: with the cache built by the real extraction
pipeline for a Controller passing `Collection<Post>` to the template, a
completion query at a position *outside* the `@foreach` block (no foreach
block contains the queried offset, and the query-time foreach source is
empty there) still offers the materialized `$post` record — it was cached
at scan time with the template's URI and the completion filter is
position-independent. -/
theorem c3_counterexample_cached_foreach_leak :
    postItemInfo ∈ provideCompletionItems envC3 cacheC3 docC3 2 1 ∧
    postItemInfo.name = str "$post" ∧
    postItemInfo.source = str "$posts (foreach item)" ∧
    (∀ r ∈ scanAll foreachDirPat (joinSep '\n' docC3.lines),
      ¬(r.1 ≤ offsetAtPos docC3.lines 2 1 ∧
        offsetAtPos docC3.lines 2 1 ≤
          foreachBlockEnd (joinSep '\n' docC3.lines) r.1 r.2.2)) ∧
    getForeachVariablesAtPosition envC3 cacheC3 docC3 2 1 = [] :=
  ⟨by decide, by decide, by decide, by decide, by decide⟩

/-- C3 amended.  Only the query-time foreach source is scoped: every
record `getForeachVariablesAtPosition` returns comes from a foreach
directive whose block contains the queried offset, and is named after that
directive's item variable. -/
theorem c3_amended_query_source_scoped (env : Env) (cache : List BladeVarInfo)
    (doc : TextDoc) (line ch : Nat) (info : BladeVarInfo)
    (h : info ∈ getForeachVariablesAtPosition env cache doc line ch) :
    ∃ r ∈ scanAll foreachDirPat (joinSep '\n' doc.lines),
      r.1 ≤ offsetAtPos doc.lines line ch ∧
      offsetAtPos doc.lines line ch ≤
        foreachBlockEnd (joinSep '\n' doc.lines) r.1 r.2.2 ∧
      info.name = '$' :: r.2.1.2 := by
  unfold getForeachVariablesAtPosition at h
  rw [List.mem_filterMap] at h
  obtain ⟨r, hr, hf⟩ := h
  refine ⟨r, hr, ?_⟩
  have hf2 : (if (r.1 ≤ offsetAtPos doc.lines line ch &&
        offsetAtPos doc.lines line ch ≤
          foreachBlockEnd (joinSep '\n' doc.lines) r.1 r.2.2 : Bool) then
      (match cache.find?
          (fun v => v.jumpTargetUri = doc.uri && v.name = ('$' :: r.2.1.1)) with
        | some collectionInfo =>
          if !collectionInfo.type.isEmpty
              && startsWithStr collectionInfo.type (str "Collection<")
              && endsWithStr collectionInfo.type (str ">") then
            some
              { name := '$' :: r.2.1.2
                source := ('$' :: r.2.1.1) ++ str " (foreach item)"
                jumpTargetUri := doc.uri
                definedInPath := collectionInfo.definedInPath
                type := (collectionInfo.type.drop 11).dropLast
                properties :=
                  inferTypeProperties env ((collectionInfo.type.drop 11).dropLast) }
          else none
        | none => none)
    else none) = some info := hf
  clear hf
  split at hf2
  · rename_i hcond
    simp only [Bool.and_eq_true, decide_eq_true_eq] at hcond
    refine ⟨hcond.1, hcond.2, ?_⟩
    split at hf2
    · split at hf2
      · have := Option.some.inj hf2
        rw [← this]
      · cases hf2
    · cases hf2
  · cases hf2

/-- Witness for C3's amended claim: at a position inside the block, the
query-time source yields the `$post` record, and it traces back to the
containing foreach directive. -/
theorem c3_amended_witness :
    ∃ r ∈ scanAll foreachDirPat (joinSep '\n' docC3.lines),
      r.1 ≤ offsetAtPos docC3.lines 0 5 ∧
      offsetAtPos docC3.lines 0 5 ≤
        foreachBlockEnd (joinSep '\n' docC3.lines) r.1 r.2.2 ∧
      postItemInfo.name = '$' :: r.2.1.2 :=
  c3_amended_query_source_scoped envC3 cacheC3 docC3 0 5 postItemInfo (by decide)
